import Mathlib

/-!
# Verification of the fin.contas schema-migration runner and API layer

This file gives a shallow embedding, in Lean 4, of the schema-migration
bootstrapper and the adjacent API helpers of the fin.contas Cloudflare
worker (`src/worker/index.ts`, `src/worker/utils/response.ts`), and proves
the behavioural properties stated in the repository specification.

Modelling conventions:
* JavaScript strings are Lean `String`s / `List Char`; the handful of
  case-folding operations involved (`toUpperCase` on SQL keywords,
  `.sql` extension stripping) are modelled per-character, which is exact
  for ASCII input (the only input the worker ships).
* `localeCompare` on migration identifiers is modelled as code-unit
  lexicographic comparison, which agrees with the default collation on
  the digit/lowercase/underscore identifiers the bundle contains.
* The D1 database is modelled as the observable state the runner reads
  and writes: the `schema_migrations` ledger (list of ids, insertion
  order) plus a log of committed statements.  A transaction buffers its
  statements and publishes them on COMMIT; ROLLBACK discards the buffer.
  Statement failure is modelled by a predicate `fails` saying which SQL
  statements the engine rejects.
-/

namespace FinContas

/-! ## JavaScript character/string helpers -/

/-- The characters matched by the regular-expression class `\s` (and trimmed
by `String.prototype.trim`), restricted to ASCII. -/
def jsWhitespaceChar (c : Char) : Bool :=
  c = ' ' || c = '\t' || c = '\n' || c = '\r' || c = '\x0b' || c = '\x0c'

/-- The characters matched by the `isBoundary` regular expression
`/[\s;(),]/` of `splitSqlStatements`. -/
def boundaryChar (c : Char) : Bool :=
  jsWhitespaceChar c || c = ';' || c = '(' || c = ')' || c = ','

/-- `String.prototype.trimEnd` on a character list. -/
def jsTrimEnd (l : List Char) : List Char :=
  (l.reverse.dropWhile jsWhitespaceChar).reverse

/-- `String.prototype.trim` on a character list. -/
def jsTrim (l : List Char) : List Char :=
  jsTrimEnd (l.dropWhile jsWhitespaceChar)

/-- `value.slice(i).toUpperCase().startsWith(kw)` for an ASCII keyword `kw`,
where `l` is the tail of the input starting at index `i`. -/
def upperStartsWith : List Char → List Char → Bool
  | _, [] => true
  | [], _ :: _ => false
  | c :: rest, k :: ks => c.toUpper == k && upperStartsWith rest ks

/-- The `isBoundary` helper of `splitSqlStatements`: the character before the
keyword (`prev`, `none` at index 0) and the character just after it
(position `length` of the remaining input `l`) must both be boundary
characters or absent. -/
def isBoundary (prev : Option Char) (l : List Char) (length : Nat) : Bool :=
  (match prev with
   | none => true
   | some b => boundaryChar b) &&
  (match l.get? length with
   | none => true
   | some a => boundaryChar a)

/-! ## `splitSqlStatements` (src/worker/index.ts)

The JS function walks the input one character at a time (occasionally two,
for `--`, `/*`, `*/`), tracking quote, comment and trigger-body state, and
splits at semicolons seen at top level.  We embed the loop as a step
function `splitStep` (one loop iteration; returns the characters consumed,
1 or 2) driven by `splitRun`. -/

structure SplitState where
  statements : List (List Char)
  current : List Char
  inSingleQuote : Bool
  inDoubleQuote : Bool
  inLineComment : Bool
  inBlockComment : Bool
  pendingTriggerBody : Bool
  triggerBodyDepth : Nat
deriving Repr, DecidableEq

def SplitState.init : SplitState :=
  { statements := [], current := [], inSingleQuote := false, inDoubleQuote := false,
    inLineComment := false, inBlockComment := false, pendingTriggerBody := false,
    triggerBodyDepth := 0 }

/-- The statement, if any, that `pushStatement` emits from an accumulated
chunk of text: trim it, drop a single trailing semicolon (re-trimming the
end), and keep the result when non-empty. -/
def finalizeChunk (current : List Char) : Option (List Char) :=
  let trimmed := jsTrim current
  if trimmed.isEmpty then none
  else
    let withoutTerminator :=
      if trimmed.getLast? = some ';' then jsTrimEnd trimmed.dropLast else trimmed
    if withoutTerminator.isEmpty then none else some withoutTerminator

/-- The `pushStatement` closure: emit `finalizeChunk` of the accumulated
text (when non-empty) and reset `current` and the trigger-tracking state. -/
def pushStatement (s : SplitState) : SplitState :=
  { s with
    statements := s.statements ++ (finalizeChunk s.current).toList
    current := []
    pendingTriggerBody := false
    triggerBodyDepth := 0 }

/-- The first statement of the trigger-keyword block: set
`pendingTriggerBody` when an (unquoted) `CREATE TRIGGER` keyword starts at
the current character. -/
def markCreateTrigger (c : Char) (rest : List Char) (prev : Option Char)
    (s : SplitState) : SplitState :=
  if !s.pendingTriggerBody
      && upperStartsWith (c :: rest) "CREATE TRIGGER".toList
      && isBoundary prev (c :: rest) "CREATE TRIGGER".length then
    { s with pendingTriggerBody := true }
  else s

/-- The second statement of the trigger-keyword block: a `BEGIN` keyword
inside (or announcing) a trigger body increments the depth, an `END` keyword
decrements it. -/
def adjustTriggerDepth (c : Char) (rest : List Char) (prev : Option Char)
    (s : SplitState) : SplitState :=
  if upperStartsWith (c :: rest) "BEGIN".toList && isBoundary prev (c :: rest) 5 then
    if s.pendingTriggerBody || decide (s.triggerBodyDepth > 0) then
      { s with triggerBodyDepth := s.triggerBodyDepth + 1, pendingTriggerBody := false }
    else s
  else if upperStartsWith (c :: rest) "END".toList && isBoundary prev (c :: rest) 3 then
    if s.triggerBodyDepth > 0 then
      let depth := s.triggerBodyDepth - 1
      let pending := if depth = 0 then false else s.pendingTriggerBody
      { s with triggerBodyDepth := depth, pendingTriggerBody := pending }
    else s
  else s

/-- The trigger-keyword block of the loop (guarded by not being inside a
quoted literal). -/
def triggerScan (c : Char) (rest : List Char) (prev : Option Char)
    (s : SplitState) : SplitState :=
  if !s.inSingleQuote && !s.inDoubleQuote then
    adjustTriggerDepth c rest prev (markCreateTrigger c rest prev s)
  else s

/-- One iteration of the `splitSqlStatements` loop.  `c` is the current
character, `rest` the input after it, `prev` the character before it in the
original input (`none` at index 0).  Returns the new state and the number of
characters consumed (1, or 2 when a two-character token `--`, `/*`, `*/` is
swallowed in one iteration). -/
def splitStep (c : Char) (rest : List Char) (prev : Option Char) (s : SplitState) :
    SplitState × Nat :=
  if s.inLineComment then
    ({ s with current := s.current ++ [c], inLineComment := !(c = '\n') }, 1)
  else if s.inBlockComment then
    if c = '*' && rest.head? = some '/' then
      ({ s with current := s.current ++ ['*', '/'], inBlockComment := false }, 2)
    else
      ({ s with current := s.current ++ [c] }, 1)
  else if !s.inSingleQuote && !s.inDoubleQuote && c = '-' && rest.head? = some '-' then
    ({ s with current := s.current ++ ['-', '-'], inLineComment := true }, 2)
  else if !s.inSingleQuote && !s.inDoubleQuote && c = '/' && rest.head? = some '*' then
    ({ s with current := s.current ++ ['/', '*'], inBlockComment := true }, 2)
  else if c = '\'' && !s.inDoubleQuote then
    let sq := if prev = some '\\' then s.inSingleQuote else !s.inSingleQuote
    ({ s with current := s.current ++ [c], inSingleQuote := sq }, 1)
  else if c = '"' && !s.inSingleQuote then
    let dq := if prev = some '\\' then s.inDoubleQuote else !s.inDoubleQuote
    ({ s with current := s.current ++ [c], inDoubleQuote := dq }, 1)
  else
    let s1 := triggerScan c rest prev s
    if c = ';' && !s1.inSingleQuote && !s1.inDoubleQuote && s1.triggerBodyDepth = 0 then
      (pushStatement { s1 with current := s1.current ++ [';'] }, 1)
    else
      ({ s1 with current := s1.current ++ [c] }, 1)

/-- The driver of the `splitSqlStatements` loop; at the end of the input the
pending text is flushed with `pushStatement`.  A step that consumed two
characters always saw a character after `c`, so the inner `[]` case is
unreachable. -/
def splitRun : List Char → Option Char → SplitState → SplitState
  | [], _, s => pushStatement s
  | c :: rest, prev, s =>
    let step := splitStep c rest prev s
    if step.2 = 2 then
      match rest with
      | [] => pushStatement step.1
      | d :: rest2 => splitRun rest2 (some d) step.1
    else splitRun rest (some c) step.1

/-- `splitSqlStatements` of src/worker/index.ts. -/
def splitSqlStatements (input : String) : List String :=
  ((splitRun input.toList none SplitState.init).statements).map (fun l => String.mk l)

/-! ## Bundled migration construction (`MIGRATIONS`, src/worker/index.ts)

`MIGRATION_SOURCES` is the build-time record of `filePath ↦ raw SQL`
produced by the glob over `migrations/*.sql`; we model it as an association
list `sources : List (String × String)` in arbitrary (iteration) order. -/

/-- A migration: identifier and its batch of SQL statements. -/
structure Migration where
  id : String
  statements : List String
deriving Repr, DecidableEq

/-- An entry of the intermediate `staged` array of the `MIGRATIONS` builder. -/
structure StagedMigration where
  id : String
  statements : List String
  filePath : String
deriving Repr, DecidableEq

/-- `normalizePathSeparators`: replace every backslash by a forward slash. -/
def normalizePathSeparators (value : List Char) : List Char :=
  value.map (fun c => if c = '\\' then '/' else c)

/-- `String.prototype.split` with a single-character separator. -/
def splitOnChar (sep : Char) : List Char → List (List Char)
  | [] => [[]]
  | c :: rest =>
    match splitOnChar sep rest with
    | [] => [[]]
    | seg :: segs => if c = sep then [] :: seg :: segs else (c :: seg) :: segs

/-- `extractMigrationId`: last path segment with a case-insensitive `.sql`
suffix removed. -/
def extractMigrationId (filePath : String) : String :=
  let normalized := normalizePathSeparators filePath.toList
  let segments := splitOnChar '/' normalized
  let fileName := match segments.getLast? with
    | some f => f
    | none => normalized
  if (fileName.drop (fileName.length - 4)).map Char.toLower = ".sql".toList
      && decide (4 ≤ fileName.length) then
    String.mk (fileName.take (fileName.length - 4))
  else String.mk fileName

/-- The startup error thrown on a duplicate migration identifier. -/
def duplicateMigrationMsg (id filePath : String) : String :=
  "Duplicate migration detected for id \"" ++ id ++ "\" (" ++ filePath ++ ")."

/-- The startup error thrown when no non-empty migration was bundled. -/
def noMigrationsMsg : String :=
  "No SQL migrations were bundled. Ensure the \"migrations\" directory contains at least one .sql file."

/-- The `staged` array: ids and statement batches extracted from the bundled
sources, before sorting. -/
def stageMigrations (sources : List (String × String)) : List StagedMigration :=
  sources.map (fun entry =>
    { id := extractMigrationId entry.1, statements := splitSqlStatements entry.2,
      filePath := entry.1 })

/-- Code-unit lexicographic comparison of character lists; this models
`localeCompare(...) ≤ 0`, with which it agrees on the ASCII
digit/lowercase/underscore identifiers the bundle contains. -/
def lexLe : List Char → List Char → Bool
  | [], _ => true
  | _ :: _, [] => false
  | a :: as, b :: bs => if a = b then lexLe as bs else decide (a < b)

/-- `l.id.localeCompare(r.id) ≤ 0` on identifiers. -/
def localeLe (a b : String) : Bool := lexLe a.toList b.toList

/-- `staged.sort((l, r) => l.id.localeCompare(r.id))`, modelled as a stable
sort by code-unit lexicographic order of the identifier. -/
def sortStaged (staged : List StagedMigration) : List StagedMigration :=
  List.insertionSort (fun l r => localeLe l.id r.id = true) staged

/-- The dedup-and-filter loop of the `MIGRATIONS` builder: reject a repeated
identifier with `duplicateMigrationMsg`, drop entries whose statement list is
empty, keep the rest in order. -/
def dedupMigrations (seen : List String) (normalized : List Migration) :
    List StagedMigration → Except String (List Migration)
  | [] => .ok normalized
  | entry :: rest =>
    if entry.id ∈ seen then .error (duplicateMigrationMsg entry.id entry.filePath)
    else if entry.statements.isEmpty then
      dedupMigrations (entry.id :: seen) normalized rest
    else
      dedupMigrations (entry.id :: seen)
        (normalized ++ [{ id := entry.id, statements := entry.statements }]) rest

/-- The `MIGRATIONS` initializer: stage, sort, dedup, and require a non-empty
result.  An `.error` models the exception thrown at module load, before any
request (and hence any migration statement) can run. -/
def buildMigrations (sources : List (String × String)) : Except String (List Migration) :=
  match dedupMigrations [] [] (sortStaged (stageMigrations sources)) with
  | .error e => .error e
  | .ok normalized =>
    if normalized.isEmpty then .error noMigrationsMsg else .ok normalized

/-! ## Database model

The observable D1 state for the runner: the `schema_migrations` ledger
(ids in insertion order) and the log of committed statements.  A trace
records the calls made to the database, in order. -/

structure DbState where
  ledger : List String
  schemaLog : List String
deriving Repr, DecidableEq

/-- One database call: a prepared statement run, a raw `exec`, or the ledger
`INSERT` recording a migration id. -/
inductive DbEvent where
  | run (statement : String)
  | exec (sql : String)
  | insertLedger (id : String)
deriving Repr, DecidableEq

/-- Result of a runner operation: the database calls made, the resulting
committed state, the raised error (if any) and the id of the migration being
applied when the error was raised. -/
structure MigResult where
  trace : List DbEvent
  db : DbState
  error : Option String
  failedId : Option String
deriving Repr, DecidableEq

/-- `statement.trim().toUpperCase().startsWith('PRAGMA')`. -/
def isPragma (statement : String) : Bool :=
  upperStartsWith (jsTrim statement.toList) "PRAGMA".toList

/-- The error message thrown by `runStatement` on a failed statement. -/
def runStatementFailureMsg (statement : String) : String :=
  "Failed to execute statement: " ++ statement

/-- Outcome of running a sequence of statements via `runStatement`:
statements run (attempted) in order, the log of statements that succeeded
appended to `log`, and the first failure (if any). -/
structure RunOutcome where
  trace : List DbEvent
  log : List String
  error : Option String
  failedStatement : Option String
deriving Repr, DecidableEq

/-- Run each statement with `runStatement` in order, stopping at the first
one the engine rejects (`fails`). -/
def runStatements (fails : String → Bool) (log : List String) :
    List String → RunOutcome
  | [] => { trace := [], log := log, error := none, failedStatement := none }
  | statement :: rest =>
    if fails statement then
      { trace := [.run statement], log := log,
        error := some (runStatementFailureMsg statement),
        failedStatement := some statement }
    else
      let r := runStatements fails (log ++ [statement]) rest
      { r with trace := .run statement :: r.trace }

/-- The wrapped error raised by `applyMigration` when the transaction fails:
`Failed to apply migration ${id}${detail}: ${reason}` with
`detail = ' while executing "${lastStatement}"'` when a statement had been
attempted. -/
def applyMigrationFailureMsg (id : String) (lastStatement : Option String)
    (reason : String) : String :=
  let detail := match lastStatement with
    | some statement => " while executing \"" ++ statement ++ "\""
    | none => ""
  "Failed to apply migration " ++ id ++ detail ++ ": " ++ reason

/-- `applyMigration` of src/worker/index.ts: split the statements into
PRAGMA and transactional groups (preserving order), run the PRAGMA group
outside any transaction, then run the transactional group and the ledger
`INSERT` inside a single `BEGIN`/`COMMIT` transaction, rolling back and
re-raising a wrapped error on failure.  Transactional effects are buffered
and published on `COMMIT`; `ROLLBACK` discards them (engine transaction
semantics). -/
def applyMigration (fails : String → Bool) (db : DbState) (m : Migration) : MigResult :=
  let parts :=
    m.statements.foldl
      (fun (acc : List String × List String) statement =>
        if isPragma statement then (acc.1 ++ [statement], acc.2)
        else (acc.1, acc.2 ++ [statement]))
      ([], [])
  let pragmaStatements := parts.1
  let transactionalStatements := parts.2
  let pragmaRun := runStatements fails db.schemaLog pragmaStatements
  match pragmaRun.error with
  | some msg =>
    { trace := pragmaRun.trace, db := { db with schemaLog := pragmaRun.log },
      error := some msg, failedId := some m.id }
  | none =>
    let txRun := runStatements fails pragmaRun.log transactionalStatements
    match txRun.error with
    | some reason =>
      { trace := pragmaRun.trace ++ [.exec "BEGIN TRANSACTION;"] ++ txRun.trace
          ++ [.exec "ROLLBACK;"],
        db := { db with schemaLog := pragmaRun.log },
        error := some (applyMigrationFailureMsg m.id txRun.failedStatement reason),
        failedId := some m.id }
    | none =>
      { trace := pragmaRun.trace ++ [.exec "BEGIN TRANSACTION;"] ++ txRun.trace
          ++ [.insertLedger m.id, .exec "COMMIT;"],
        db := { ledger := db.ledger ++ [m.id], schemaLog := txRun.log },
        error := none, failedId := none }

/-- The DDL executed by `ensureMigrationsTable`. -/
def ensureMigrationsTableSql : String :=
  "CREATE TABLE IF NOT EXISTS schema_migrations (\n      id TEXT PRIMARY KEY,\n      applied_at DATETIME NOT NULL\n    );"

/-- `getAppliedMigrations`: the ids selected from `schema_migrations`,
keeping only truthy (non-empty) values, per `if (row?.id)`. -/
def getAppliedMigrations (db : DbState) : List String :=
  db.ledger.filter (fun id => !(id = ""))

/-- The migration loop body of `ensureDatabaseSchema`: skip migrations whose
id is in the `applied` snapshot, apply the rest in order, stopping at the
first failure. -/
def runPending (fails : String → Bool) (applied : List String) (db : DbState) :
    List Migration → MigResult
  | [] => { trace := [], db := db, error := none, failedId := none }
  | m :: rest =>
    if m.id ∈ applied then runPending fails applied db rest
    else
      let r := applyMigration fails db m
      match r.error with
      | some _ => r
      | none =>
        let restResult := runPending fails applied r.db rest
        { restResult with trace := r.trace ++ restResult.trace }

/-- One full migration pass of `ensureDatabaseSchema`: ensure the ledger
table, snapshot the applied set, then run the pending migrations. -/
def runMigrations (fails : String → Bool) (migs : List Migration) (db : DbState) : MigResult :=
  let applied := getAppliedMigrations db
  let r := runPending fails applied db migs
  { r with trace := .exec ensureMigrationsTableSql :: r.trace }

/-- Module load plus first migration pass: if the `MIGRATIONS` initializer
throws, no database call is ever made. -/
def startup (fails : String → Bool) (sources : List (String × String)) (db : DbState) :
    MigResult :=
  match buildMigrations sources with
  | .error e => { trace := [], db := db, error := some e, failedId := none }
  | .ok migs => runMigrations fails migs db

/-- The first migration a fresh pass over `migs` would attempt to apply,
given the `applied` snapshot it would read. -/
def firstPendingMigration (migs : List Migration) (applied : List String) :
    Option Migration :=
  (migs.filter (fun m => !(m.id ∈ applied : Bool))).head?

/-! ## API responses (src/worker/utils/response.ts and the middleware) -/

/-- A JSON-bodied HTTP response: status code and the top-level fields of the
JSON object body, as key/value pairs. -/
structure ApiResponse where
  status : Nat
  body : List (String × String)
deriving Repr, DecidableEq

/-- `errorResponse` of src/worker/utils/response.ts:
`Response.json({ error: message }, { status })` with `status` defaulting
to 400. -/
def errorResponse (message : String) (status : Nat := 400) : ApiResponse :=
  { status := status, body := [("error", message)] }

/-- The distinct status codes passed at the `errorResponse` call sites of
the worker (the fourth entry is also the default).  Collected from
src/worker/index.ts: 49 calls with 400, 26 with 401, 18 with 404 and 53
with 500. -/
def errorResponseCallStatuses : List Nat := [400, 401, 404, 500]

/-- The schema middleware `app.use('*', ...)`: when `ensureDatabaseSchema`
rejects, the request is answered with `errorResponse('Database not ready',
500)`; otherwise the middleware passes the request on (`none`). -/
def schemaMiddleware (r : MigResult) : Option ApiResponse :=
  match r.error with
  | some _ => some (errorResponse "Database not ready" 500)
  | none => none

/-! ## The in-process promise guard (`schemaInitPromise`)

`ensureDatabaseSchema` synchronously checks `schemaInitPromise`, creates
and caches the migration-pass promise when it is `null`, and installs a
`.catch` that resets the variable to `null` on rejection.  JavaScript's
run-to-completion semantics make the check-and-assign atomic, so we model a
process lifetime as an interleaving of `call` events (the synchronous body,
returning the promise the caller awaits, identified by a serial number) and
`settle` events (the cached pass resolving or rejecting). -/

structure SchemaGuard where
  schemaInitPromise : Option Nat
  nextPromiseId : Nat
  startedPasses : List Nat
deriving Repr, DecidableEq

def SchemaGuard.init : SchemaGuard :=
  { schemaInitPromise := none, nextPromiseId := 0, startedPasses := [] }

/-- The synchronous body of `ensureDatabaseSchema`: reuse the cached promise
when present, otherwise start a new migration pass and cache its promise.
Returns the promise the caller gets. -/
def guardCall (g : SchemaGuard) : SchemaGuard × Nat :=
  match g.schemaInitPromise with
  | some p => (g, p)
  | none =>
    ({ schemaInitPromise := some g.nextPromiseId,
       nextPromiseId := g.nextPromiseId + 1,
       startedPasses := g.startedPasses ++ [g.nextPromiseId] }, g.nextPromiseId)

/-- The cached promise settling: `success = false` runs the `.catch` handler
`schemaInitPromise = null`; a fulfilled promise stays cached. -/
def guardSettle (g : SchemaGuard) (success : Bool) : SchemaGuard :=
  if success then g else { g with schemaInitPromise := none }

/-- An event in a process lifetime. -/
inductive GuardOp where
  | call
  | settle (success : Bool)
deriving Repr, DecidableEq

/-- Run a process lifetime from a guard state, collecting the promise each
`call` returns. -/
def runGuardOps (g : SchemaGuard) : List GuardOp → SchemaGuard × List Nat
  | [] => (g, [])
  | .call :: rest =>
    let step := guardCall g
    let tail := runGuardOps step.1 rest
    (tail.1, step.2 :: tail.2)
  | .settle success :: rest => runGuardOps (guardSettle g success) rest

/-! ## `GET /api/transactions` pagination (src/worker/index.ts)

`parseInt(x, 10)` yields a number or `NaN`; `Math.max`/`Math.min`
propagate `NaN`.  We model a JS number that is either an integer or `NaN`
as `Option Int` (`none` = `NaN`); the handler's digit strings are parsed
exactly. -/

/-- `parseInt(s, 10)`: skip leading whitespace, take an optional sign and
then the longest run of decimal digits; `NaN` (here `none`) if that run is
empty. -/
def parseIntBase10 (s : String) : Option Int :=
  let chars := s.toList.dropWhile jsWhitespaceChar
  let signAndRest : Int × List Char :=
    match chars with
    | '-' :: r => (-1, r)
    | '+' :: r => (1, r)
    | r => (1, r)
  let digits := signAndRest.2.takeWhile Char.isDigit
  if digits.isEmpty then none
  else
    some (signAndRest.1 *
      (digits.foldl (fun acc c => acc * 10 + (c.toNat - '0'.toNat)) (0 : Nat) : Nat))

/-- `Math.max(a, b)` with a possibly-`NaN` first argument. -/
def jsMax (a : Option Int) (b : Int) : Option Int := a.map (fun x => max x b)

/-- `Math.min(a, b)` with a possibly-`NaN` first argument. -/
def jsMin (a : Option Int) (b : Int) : Option Int := a.map (fun x => min x b)

/-- `Math.max(parseInt(c.req.query('page') ?? '1', 10), 1)`. -/
def effectivePage (pageQuery : Option String) : Option Int :=
  jsMax (parseIntBase10 (pageQuery.getD "1")) 1

/-- `Math.min(Math.max(parseInt(c.req.query('pageSize') ?? '20', 10), 1), 100)`. -/
def effectivePageSize (pageSizeQuery : Option String) : Option Int :=
  jsMin (jsMax (parseIntBase10 (pageSizeQuery.getD "20")) 1) 100

/-- The pagination object returned by the handler. -/
structure PaginationInfo where
  page : Int
  pageSize : Int
  total : Nat
  totalPages : Nat
deriving Repr, DecidableEq

/-- The rows and pagination object `GET /api/transactions` produces, given
the matching rows in `ORDER BY` order.  `LIMIT pageSize OFFSET skip` is the
engine's drop/take; `Math.ceil(total / pageSize)` on a non-negative exact
division is `(total + pageSize - 1) / pageSize`.  A `NaN` page or pageSize
(`none`) poisons the bound parameters and the request fails instead of
returning a page. -/
def listTransactions {α : Type} (pageQuery pageSizeQuery : Option String)
    (rows : List α) : Option (List α × PaginationInfo) :=
  match effectivePage pageQuery, effectivePageSize pageSizeQuery with
  | some page, some pageSize =>
    let skip := ((page - 1) * pageSize).toNat
    let total := rows.length
    some ((rows.drop skip).take pageSize.toNat,
      { page := page, pageSize := pageSize, total := total,
        totalPages := (total + pageSize.toNat - 1) / pageSize.toNat })
  | _, _ => none

/-! ## Lemmas about `splitSqlStatements` -/

/-- A keyword starting with an ASCII letter never matches at a semicolon. -/
lemma upperStartsWith_cons_false {c k : Char} (rest ks : List Char)
    (h : (c.toUpper == k) = false) :
    upperStartsWith (c :: rest) (k :: ks) = false := by
  simp [upperStartsWith, h]

/-- A semicolon does not start the `CREATE TRIGGER` keyword. -/
lemma upperStartsWith_semi_createTrigger (rest : List Char) :
    upperStartsWith (';' :: rest) "CREATE TRIGGER".toList = false := by
  rw [show ("CREATE TRIGGER".toList) = 'C' :: "REATE TRIGGER".toList from rfl]
  exact @upperStartsWith_cons_false ';' 'C' rest _ (by decide)

/-- A semicolon does not start the `BEGIN` keyword. -/
lemma upperStartsWith_semi_begin (rest : List Char) :
    upperStartsWith (';' :: rest) "BEGIN".toList = false := by
  rw [show ("BEGIN".toList) = 'B' :: "EGIN".toList from rfl]
  exact @upperStartsWith_cons_false ';' 'B' rest _ (by decide)

/-- A semicolon does not start the `END` keyword. -/
lemma upperStartsWith_semi_end (rest : List Char) :
    upperStartsWith (';' :: rest) "END".toList = false := by
  rw [show ("END".toList) = 'E' :: "ND".toList from rfl]
  exact @upperStartsWith_cons_false ';' 'E' rest _ (by decide)

/-- The trigger-keyword block does nothing at a semicolon. -/
lemma triggerScan_semicolon (rest : List Char) (prev : Option Char) (s : SplitState) :
    triggerScan ';' rest prev s = s := by
  unfold triggerScan markCreateTrigger adjustTriggerDepth
  rw [upperStartsWith_semi_createTrigger, upperStartsWith_semi_begin,
    upperStartsWith_semi_end]
  simp

/-- `markCreateTrigger` touches only the trigger-tracking fields. -/
lemma markCreateTrigger_preserves (c : Char) (rest : List Char) (prev : Option Char)
    (s : SplitState) :
    (markCreateTrigger c rest prev s).statements = s.statements ∧
      (markCreateTrigger c rest prev s).current = s.current ∧
      (markCreateTrigger c rest prev s).inSingleQuote = s.inSingleQuote ∧
      (markCreateTrigger c rest prev s).inDoubleQuote = s.inDoubleQuote := by
  unfold markCreateTrigger
  split <;> exact ⟨rfl, rfl, rfl, rfl⟩

/-- `adjustTriggerDepth` touches only the trigger-tracking fields. -/
lemma adjustTriggerDepth_preserves (c : Char) (rest : List Char) (prev : Option Char)
    (s : SplitState) :
    (adjustTriggerDepth c rest prev s).statements = s.statements ∧
      (adjustTriggerDepth c rest prev s).current = s.current ∧
      (adjustTriggerDepth c rest prev s).inSingleQuote = s.inSingleQuote ∧
      (adjustTriggerDepth c rest prev s).inDoubleQuote = s.inDoubleQuote := by
  unfold adjustTriggerDepth
  repeat' split
  all_goals exact ⟨rfl, rfl, rfl, rfl⟩

/-- `triggerScan` touches only the trigger-tracking fields. -/
lemma triggerScan_preserves (c : Char) (rest : List Char) (prev : Option Char)
    (s : SplitState) :
    (triggerScan c rest prev s).statements = s.statements ∧
      (triggerScan c rest prev s).current = s.current ∧
      (triggerScan c rest prev s).inSingleQuote = s.inSingleQuote ∧
      (triggerScan c rest prev s).inDoubleQuote = s.inDoubleQuote := by
  unfold triggerScan
  split
  · have h1 := adjustTriggerDepth_preserves c rest prev (markCreateTrigger c rest prev s)
    have h2 := markCreateTrigger_preserves c rest prev s
    exact ⟨h1.1.trans h2.1, h1.2.1.trans h2.2.1, h1.2.2.1.trans h2.2.2.1,
      h1.2.2.2.trans h2.2.2.2⟩
  · exact ⟨rfl, rfl, rfl, rfl⟩

/-- Inside a quote, a comment, or a trigger body, a semicolon never ends a
statement: the step that consumes it emits nothing (and consumes exactly the
one character). -/
lemma splitStep_semicolon_protected (rest : List Char) (prev : Option Char)
    (s : SplitState)
    (h : s.inSingleQuote = true ∨ s.inDoubleQuote = true ∨ s.inLineComment = true ∨
      s.inBlockComment = true ∨ 0 < s.triggerBodyDepth) :
    (splitStep ';' rest prev s).1.statements = s.statements ∧
      (splitStep ';' rest prev s).2 = 1 := by
  obtain ⟨stmts, cur, sq, dq, lc, bc, ptb, depth⟩ := s
  simp only [SplitState.inSingleQuote, SplitState.inDoubleQuote, SplitState.inLineComment,
    SplitState.inBlockComment, SplitState.triggerBodyDepth, SplitState.statements] at h ⊢
  cases lc
  · cases bc
    · cases sq
      · cases dq
        · -- top level except for a positive trigger-body depth
          have hdepth : 0 < depth := by
            rcases h with h | h | h | h | h <;> first | exact h | exact absurd h (by simp)
          simp only [splitStep, triggerScan_semicolon]
          simp [hdepth, Nat.pos_iff_ne_zero.mp hdepth]
        · simp [splitStep, triggerScan]
      · simp [splitStep, triggerScan]
    · cases (rest.head? == some '/') <;> simp [splitStep]
  · simp [splitStep]

/-- Whatever `finalizeChunk` emits is non-empty. -/
lemma finalizeChunk_ne_nil {raw x : List Char} (h : finalizeChunk raw = some x) :
    x ≠ [] := by
  simp only [finalizeChunk] at h
  split at h
  · exact absurd h (by simp)
  · set w := if (jsTrim raw).getLast? = some ';' then jsTrimEnd (jsTrim raw).dropLast
      else jsTrim raw with hw
    split at h
    · exact absurd h (by simp)
    · rename_i hne
      have hx := Option.some.inj h
      subst hx
      simpa using hne

/-- Every statement present after a `splitStep` was either already there or
is the output of `finalizeChunk` on some chunk of text. -/
lemma splitStep_statements_shape (c : Char) (rest : List Char) (prev : Option Char)
    (s : SplitState) :
    (splitStep c rest prev s).1.statements = s.statements ∨
      ∃ raw, (splitStep c rest prev s).1.statements =
        s.statements ++ (finalizeChunk raw).toList := by
  simp only [splitStep]
  split
  · exact Or.inl rfl
  · split
    · split
      · exact Or.inl rfl
      · exact Or.inl rfl
    · split
      · exact Or.inl rfl
      · split
        · exact Or.inl rfl
        · split
          · exact Or.inl rfl
          · split
            · exact Or.inl rfl
            · split
              · right
                exact ⟨(triggerScan c rest prev s).current ++ [';'],
                  by simp [pushStatement, (triggerScan_preserves c rest prev s).1]⟩
              · left
                exact (triggerScan_preserves c rest prev s).1

/-- Same statement for `pushStatement`. -/
lemma pushStatement_statements_shape (s : SplitState) :
    ∃ raw, (pushStatement s).statements = s.statements ++ (finalizeChunk raw).toList :=
  ⟨s.current, rfl⟩

/-- Every statement `splitRun` ever emits is the `finalizeChunk` of some
chunk of text. -/
lemma splitRun_statements_sound :
    ∀ (input : List Char) (prev : Option Char) (s : SplitState),
      (∀ x ∈ s.statements, ∃ raw, finalizeChunk raw = some x) →
      ∀ x ∈ (splitRun input prev s).statements, ∃ raw, finalizeChunk raw = some x := by
  have push : ∀ (s : SplitState),
      (∀ x ∈ s.statements, ∃ raw, finalizeChunk raw = some x) →
      ∀ x ∈ (pushStatement s).statements, ∃ raw, finalizeChunk raw = some x := by
    intro s hs x hx
    obtain ⟨raw, hraw⟩ := pushStatement_statements_shape s
    rw [hraw] at hx
    rcases List.mem_append.mp hx with hx | hx
    · exact hs x hx
    · exact ⟨raw, by simpa using hx⟩
  have step : ∀ (c : Char) (rest : List Char) (prev : Option Char) (s : SplitState),
      (∀ x ∈ s.statements, ∃ raw, finalizeChunk raw = some x) →
      ∀ x ∈ (splitStep c rest prev s).1.statements,
        ∃ raw, finalizeChunk raw = some x := by
    intro c rest prev s hs x hx
    rcases splitStep_statements_shape c rest prev s with h | ⟨raw, h⟩
    · exact hs x (h ▸ hx)
    · rw [h] at hx
      rcases List.mem_append.mp hx with hx | hx
      · exact hs x hx
      · exact ⟨raw, by simpa using hx⟩
  intro input prev s
  induction input, prev, s using splitRun.induct with
  | case1 prev s =>
    intro hs
    exact push s hs
  | case2 c prev s stp hstep =>
    intro hs
    show ∀ x ∈ (splitRun [c] prev s).statements, _
    simp only [splitRun]
    rw [if_pos (show (splitStep c [] prev s).2 = 2 from hstep)]
    exact push _ (step c [] prev s hs)
  | case3 c prev s d rest2 stp hstep ih =>
    intro hs
    show ∀ x ∈ (splitRun (c :: d :: rest2) prev s).statements, _
    simp only [splitRun]
    rw [if_pos (show (splitStep c (d :: rest2) prev s).2 = 2 from hstep)]
    exact ih (step c (d :: rest2) prev s hs)
  | case4 c rest prev s stp hstep ih =>
    intro hs
    have hrec := ih (step c rest prev s hs)
    cases rest with
    | nil =>
      show ∀ x ∈ (splitRun [c] prev s).statements, _
      simp only [splitRun]
      rw [if_neg (show ¬ (splitStep c [] prev s).2 = 2 from hstep)]
      exact hrec
    | cons d rest2 =>
      show ∀ x ∈ (splitRun (c :: d :: rest2) prev s).statements, _
      simp only [splitRun]
      rw [if_neg (show ¬ (splitStep c (d :: rest2) prev s).2 = 2 from hstep)]
      exact hrec

/-- C10: `splitSqlStatements` splits only at top-level semicolons — a
semicolon consumed while inside a single- or double-quoted literal, a line
or block comment, or a trigger `BEGIN`..`END` body (positive depth) never
ends a statement — and every returned statement is non-empty and is the
trim-and-drop-trailing-semicolon (`finalizeChunk`) of some chunk of the
accumulated text. -/
theorem claim_C10_split_only_top_level :
    (∀ (rest : List Char) (prev : Option Char) (s : SplitState),
        (s.inSingleQuote = true ∨ s.inDoubleQuote = true ∨ s.inLineComment = true ∨
          s.inBlockComment = true ∨ 0 < s.triggerBodyDepth) →
        (splitStep ';' rest prev s).1.statements = s.statements) ∧
    (∀ (input : String), ∀ stmt ∈ splitSqlStatements input,
        stmt ≠ "" ∧ ∃ raw : List Char, finalizeChunk raw = some stmt.toList) := by
  constructor
  · intro rest prev s h
    exact (splitStep_semicolon_protected rest prev s h).1
  · intro input stmt hmem
    obtain ⟨l, hl, rfl⟩ := List.mem_map.mp hmem
    obtain ⟨raw, hraw⟩ :=
      splitRun_statements_sound input.toList none SplitState.init
        (by intro x hx; simp [SplitState.init] at hx) l hl
    refine ⟨?_, ⟨raw, ?_⟩⟩
    · have hne := finalizeChunk_ne_nil hraw
      intro hcontra
      exact hne (by simpa using congrArg String.toList hcontra)
    · rw [show (String.mk l).toList = l from rfl]
      exact hraw

/-- Witness for C10: a concrete protected state (inside a single-quoted
literal) where a semicolon emits nothing, and a concrete input whose
returned statement satisfies the output contract. -/
theorem claim_C10_split_only_top_level_witness :
    ((splitStep ';' [] none ⟨[], ['a'], true, false, false, false, false, 0⟩).1.statements
        = SplitState.statements ⟨[], ['a'], true, false, false, false, false, 0⟩) ∧
      ("SELECT 'a;b'" ≠ "" ∧
        ∃ raw : List Char, finalizeChunk raw = some ("SELECT 'a;b'".toList)) :=
  ⟨claim_C10_split_only_top_level.1 [] none ⟨[], ['a'], true, false, false, false, false, 0⟩
      (Or.inl rfl),
    claim_C10_split_only_top_level.2 "SELECT 'a;b'; X" "SELECT 'a;b'" (by decide)⟩


/-! ## Lemmas about `runStatements` and `applyMigration` -/

/-- The statement-partition fold of `applyMigration`, generalized over the
accumulator. -/
lemma partition_foldl_eq (stmts : List String) (a b : List String) :
    stmts.foldl
      (fun (acc : List String × List String) statement =>
        if isPragma statement then (acc.1 ++ [statement], acc.2)
        else (acc.1, acc.2 ++ [statement]))
      (a, b) =
    (a ++ stmts.filter (fun s => isPragma s), b ++ stmts.filter (fun s => !(isPragma s))) := by
  induction stmts generalizing a b with
  | nil => simp
  | cons s rest ih =>
    by_cases hs : isPragma s
    · simp [List.foldl_cons, hs, ih]
    · simp [List.foldl_cons, hs, ih]

/-- With no failing statement, `runStatements` runs everything: the log is
extended by the statements in order, the trace runs them in order, and no
error is raised. -/
lemma runStatements_none (fails : String → Bool) (log : List String)
    (stmts : List String) (h : ∀ s ∈ stmts, fails s = false) :
    runStatements fails log stmts =
      { trace := stmts.map DbEvent.run, log := log ++ stmts, error := none,
        failedStatement := none } := by
  induction stmts generalizing log with
  | nil => simp [runStatements]
  | cons s rest ih =>
    have hs : fails s = false := h s (List.mem_cons_self s rest)
    have hrest : ∀ x ∈ rest, fails x = false := fun x hx => h x (List.mem_cons_of_mem s hx)
    simp [runStatements, hs, ih (log ++ [s]) hrest]

/-- If `runStatements` raises no error, no statement in the list fails. -/
lemma runStatements_error_of_fails (fails : String → Bool) (log : List String)
    (stmts : List String) (hex : ∃ s ∈ stmts, fails s = true) :
    ((runStatements fails log stmts).error).isSome := by
  induction stmts generalizing log with
  | nil => simp at hex
  | cons s rest ih =>
    by_cases hs : fails s
    · simp [runStatements, hs]
    · obtain ⟨x, hx, hfx⟩ := hex
      rcases List.mem_cons.mp hx with rfl | hx
      · exact absurd hfx (by simpa using hs)
      · simpa [runStatements, hs] using ih (log ++ [s]) ⟨x, hx, hfx⟩

/-- On failure, `runStatements` reports the first failing statement: the
error is its `runStatementFailureMsg`, the failed statement is exposed, and
the log was extended only by (successful) statements from the list. -/
lemma runStatements_error (fails : String → Bool) (log : List String)
    (stmts : List String) (e : String)
    (h : (runStatements fails log stmts).error = some e) :
    ∃ s, s ∈ stmts ∧ fails s = true ∧ e = runStatementFailureMsg s ∧
      (runStatements fails log stmts).failedStatement = some s ∧
      ∃ t, (runStatements fails log stmts).log = log ++ t ∧ ∀ x ∈ t, x ∈ stmts := by
  induction stmts generalizing log with
  | nil => simp [runStatements] at h
  | cons s rest ih =>
    by_cases hs : fails s
    · refine ⟨s, List.mem_cons_self s rest, hs, ?_, ?_, ⟨[], by simp [runStatements, hs], by simp⟩⟩
      · simpa [runStatements, hs] using h.symm
      · simp [runStatements, hs]
    · have h2 : (runStatements fails (log ++ [s]) rest).error = some e := by
        simpa [runStatements, hs] using h
      obtain ⟨x, hx, hfx, he, hfs, t, hlog, ht⟩ := ih (log ++ [s]) h2
      refine ⟨x, List.mem_cons_of_mem s hx, hfx, he, ?_, ⟨s :: t, ?_, ?_⟩⟩
      · simpa [runStatements, hs] using hfs
      · simpa [runStatements, hs] using hlog
      · intro y hy
        rcases List.mem_cons.mp hy with rfl | hy
        · exact List.mem_cons_self y rest
        · exact List.mem_cons_of_mem s (ht y hy)

/-- The trace of `runStatements` contains only `run` events, never a ledger
insert. -/
lemma runStatements_trace_no_ledger (fails : String → Bool) (log : List String)
    (stmts : List String) :
    (runStatements fails log stmts).trace.filterMap
      (fun e => match e with
        | DbEvent.insertLedger id => some id
        | _ => none) = [] := by
  induction stmts generalizing log with
  | nil => simp [runStatements]
  | cons s rest ih =>
    by_cases hs : fails s
    · simp [runStatements, hs]
    · simp [runStatements, hs, ih (log ++ [s])]


/-- The id-extraction used on ledger-insert trace events. -/
def ledgerEventId (e : DbEvent) : Option String :=
  match e with
  | DbEvent.insertLedger id => some id
  | _ => none

/-- The failing statement is embedded in the `runStatement` error. -/
lemma infix_runStatementFailureMsg (s : String) :
    s.toList <:+: (runStatementFailureMsg s).toList :=
  ⟨"Failed to execute statement: ".toList, [], by simp [runStatementFailureMsg]⟩

/-- The failing transactional statement and the migration id are both
embedded in the wrapped `applyMigration` error. -/
lemma infix_applyMigrationFailureMsg (id s reason : String) :
    s.toList <:+: (applyMigrationFailureMsg id (some s) reason).toList ∧
      id.toList <:+: (applyMigrationFailureMsg id (some s) reason).toList := by
  constructor
  · exact ⟨("Failed to apply migration " ++ id ++ " while executing \"").toList,
      ("\"" ++ ": " ++ reason).toList, by simp [applyMigrationFailureMsg]⟩
  · exact ⟨("Failed to apply migration ").toList,
      (" while executing \"" ++ s ++ "\"" ++ ": " ++ reason).toList,
      by simp [applyMigrationFailureMsg]⟩

/-- On success, `applyMigration` commits: the ledger gains exactly the
migration id, the log gains the pragma group then the transactional group,
and the trace is pragmas, `BEGIN`, transactional statements, the ledger
insert, `COMMIT`. -/
lemma applyMigration_success (fails : String → Bool) (db : DbState) (m : Migration)
    (h : (applyMigration fails db m).error = none) :
    (applyMigration fails db m).db.ledger = db.ledger ++ [m.id] ∧
      (applyMigration fails db m).db.schemaLog =
        db.schemaLog ++ m.statements.filter (fun s => isPragma s)
          ++ m.statements.filter (fun s => !(isPragma s)) ∧
      (applyMigration fails db m).failedId = none ∧
      (applyMigration fails db m).trace =
        (m.statements.filter (fun s => isPragma s)).map DbEvent.run
          ++ [DbEvent.exec "BEGIN TRANSACTION;"]
          ++ (m.statements.filter (fun s => !(isPragma s))).map DbEvent.run
          ++ [DbEvent.insertLedger m.id, DbEvent.exec "COMMIT;"] := by
  revert h
  unfold applyMigration
  rw [partition_foldl_eq m.statements [] []]
  simp only [List.nil_append]
  rcases hp : (runStatements fails db.schemaLog (m.statements.filter (fun s => isPragma s))).error with _ | e1
  · rcases ht : (runStatements fails
        (runStatements fails db.schemaLog (m.statements.filter (fun s => isPragma s))).log
        (m.statements.filter (fun s => !(isPragma s)))).error with _ | e2
    · intro _
      have hpf : ∀ s ∈ m.statements.filter (fun s => isPragma s), fails s = false := by
        intro s hs
        by_contra hf
        have := runStatements_error_of_fails fails db.schemaLog
          (m.statements.filter (fun s => isPragma s)) ⟨s, hs, by simpa using hf⟩
        rw [hp] at this
        simp at this
      have hp2 := runStatements_none fails db.schemaLog
        (m.statements.filter (fun s => isPragma s)) hpf
      have htf : ∀ s ∈ m.statements.filter (fun s => !(isPragma s)), fails s = false := by
        intro s hs
        by_contra hf
        have := runStatements_error_of_fails fails
          (runStatements fails db.schemaLog (m.statements.filter (fun s => isPragma s))).log
          (m.statements.filter (fun s => !(isPragma s))) ⟨s, hs, by simpa using hf⟩
        rw [ht] at this
        simp at this
      have ht2 := runStatements_none fails
        (runStatements fails db.schemaLog (m.statements.filter (fun s => isPragma s))).log
        (m.statements.filter (fun s => !(isPragma s))) htf
      rw [hp2] at ht2 ⊢
      rw [ht2]
      simp
    · intro h
      simp [ht] at h
  · intro h
    simp [hp] at h

/-- On failure, `applyMigration` leaves the ledger untouched, extends the
log only by (successfully run) pragma statements of the migration, reports
the migration id in `failedId`, and raises an error that embeds the failing
statement (and, when the failing statement is transactional, also the
migration id). -/
lemma applyMigration_error (fails : String → Bool) (db : DbState) (m : Migration)
    (e : String) (h : (applyMigration fails db m).error = some e) :
    (applyMigration fails db m).db.ledger = db.ledger ∧
      (applyMigration fails db m).failedId = some m.id ∧
      (∃ t, (applyMigration fails db m).db.schemaLog = db.schemaLog ++ t ∧
        ∀ s ∈ t, isPragma s = true ∧ s ∈ m.statements) ∧
      ∃ s, s ∈ m.statements ∧ fails s = true ∧ s.toList <:+: e.toList ∧
        (isPragma s = false → m.id.toList <:+: e.toList) := by
  revert h
  unfold applyMigration
  rw [partition_foldl_eq m.statements [] []]
  simp only [List.nil_append]
  rcases hp : (runStatements fails db.schemaLog (m.statements.filter (fun s => isPragma s))).error with _ | e1
  · rcases ht : (runStatements fails
        (runStatements fails db.schemaLog (m.statements.filter (fun s => isPragma s))).log
        (m.statements.filter (fun s => !(isPragma s)))).error with _ | e2
    · intro h
      simp at h
    · intro h
      simp only [MigResult.error, Option.some.injEq] at h
      have hpf : ∀ s ∈ m.statements.filter (fun s => isPragma s), fails s = false := by
        intro s hs
        by_contra hf
        have := runStatements_error_of_fails fails db.schemaLog
          (m.statements.filter (fun s => isPragma s)) ⟨s, hs, by simpa using hf⟩
        rw [hp] at this
        simp at this
      have hp2 := runStatements_none fails db.schemaLog
        (m.statements.filter (fun s => isPragma s)) hpf
      obtain ⟨s, hsmem, hsf, he2, hfs, t, hlog, ht2⟩ :=
        runStatements_error fails _ _ e2 ht
      refine ⟨rfl, rfl, ?_, ?_⟩
      · refine ⟨m.statements.filter (fun s => isPragma s), ?_, ?_⟩
        · simp [hp2]
        · intro x hx
          exact ⟨(List.mem_filter.mp hx).2, (List.mem_filter.mp hx).1⟩
      · refine ⟨s, (List.mem_filter.mp hsmem).1, hsf, ?_, ?_⟩
        · rw [← h, hfs, he2]
          exact (infix_applyMigrationFailureMsg m.id s (runStatementFailureMsg s)).1
        · intro _
          rw [← h, hfs, he2]
          exact (infix_applyMigrationFailureMsg m.id s (runStatementFailureMsg s)).2
  · intro h
    simp only [MigResult.error, Option.some.injEq] at h
    obtain ⟨s, hsmem, hsf, he1, hfs, t, hlog, ht2⟩ :=
      runStatements_error fails _ _ e1 hp
    refine ⟨rfl, rfl, ?_, ?_⟩
    · refine ⟨t, by simpa using hlog, ?_⟩
      · intro x hx
        have := ht2 x hx
        exact ⟨(List.mem_filter.mp this).2, (List.mem_filter.mp this).1⟩
    · refine ⟨s, (List.mem_filter.mp hsmem).1, hsf, ?_, ?_⟩
      · rw [← h, he1]
        exact infix_runStatementFailureMsg s
      · intro hnp
        exact absurd (List.mem_filter.mp hsmem).2 (by simp [hnp])


/-! ## Lemmas about `runPending` / `runMigrations` -/

/-- A pass only ever appends to the ledger. -/
lemma runPending_ledger_extends (fails : String → Bool) (applied : List String) :
    ∀ (migs : List Migration) (db : DbState),
      ∃ t, (runPending fails applied db migs).db.ledger = db.ledger ++ t := by
  intro migs
  induction migs with
  | nil => exact fun db => ⟨[], by simp [runPending]⟩
  | cons m rest ih =>
    intro db
    by_cases hm : m.id ∈ applied
    · simpa [runPending, hm] using ih db
    · rcases herr : (applyMigration fails db m).error with _ | e
      · obtain ⟨t, ht⟩ := ih (applyMigration fails db m).db
        refine ⟨m.id :: t, ?_⟩
        rw [show (runPending fails applied db (m :: rest)).db
            = (runPending fails applied (applyMigration fails db m).db rest).db by
          simp [runPending, hm, herr]]
        rw [ht, (applyMigration_success fails db m herr).1]
        simp
      · refine ⟨[], ?_⟩
        rw [show (runPending fails applied db (m :: rest)).db
            = (applyMigration fails db m).db by simp [runPending, hm, herr]]
        rw [(applyMigration_error fails db m e herr).1]
        simp

/-- After a successful pass, every migration id is either in the applied
snapshot or in the resulting ledger. -/
lemma runPending_success_covers (fails : String → Bool) (applied : List String) :
    ∀ (migs : List Migration) (db : DbState),
      (runPending fails applied db migs).error = none →
      ∀ m ∈ migs, m.id ∈ applied ∨ m.id ∈ (runPending fails applied db migs).db.ledger := by
  intro migs
  induction migs with
  | nil => intro db _ m hm; simp at hm
  | cons m rest ih =>
    intro db herrall x hx
    by_cases hm : m.id ∈ applied
    · rcases List.mem_cons.mp hx with rfl | hx2
      · exact Or.inl hm
      · have herr2 : (runPending fails applied db rest).error = none := by
          simpa [runPending, hm] using herrall
        rcases ih db herr2 x hx2 with h | h
        · exact Or.inl h
        · right
          rw [show (runPending fails applied db (m :: rest)).db
              = (runPending fails applied db rest).db by simp [runPending, hm]]
          exact h
    · rcases herr : (applyMigration fails db m).error with _ | e
      · have hdb : (runPending fails applied db (m :: rest)).db
            = (runPending fails applied (applyMigration fails db m).db rest).db := by
          simp [runPending, hm, herr]
        have herr2 : (runPending fails applied (applyMigration fails db m).db rest).error = none := by
          simpa [runPending, hm, herr] using herrall
        rcases List.mem_cons.mp hx with rfl | hx2
        · right
          rw [hdb]
          obtain ⟨t, ht⟩ :=
            runPending_ledger_extends fails applied rest (applyMigration fails db x).db
          rw [ht, (applyMigration_success fails db x herr).1]
          simp
        · rcases ih (applyMigration fails db m).db herr2 x hx2 with h | h
          · exact Or.inl h
          · right
            rw [hdb]
            exact h
      · have : (runPending fails applied db (m :: rest)).error = some e := by
          simp [runPending, hm, herr]
        rw [this] at herrall
        exact absurd herrall (by simp)

/-- If every migration id is already in the applied snapshot the pass does
nothing at all. -/
lemma runPending_skip_all (fails : String → Bool) (applied : List String) :
    ∀ (migs : List Migration) (db : DbState),
      (∀ m ∈ migs, m.id ∈ applied) →
      runPending fails applied db migs =
        { trace := [], db := db, error := none, failedId := none } := by
  intro migs
  induction migs with
  | nil => intro db _; simp [runPending]
  | cons m rest ih =>
    intro db h
    have hm : m.id ∈ applied := h m (List.mem_cons_self m rest)
    rw [show runPending fails applied db (m :: rest) = runPending fails applied db rest by
      simp [runPending, hm]]
    exact ih db (fun x hx => h x (List.mem_cons_of_mem m hx))

/-- C1: a second migration pass over a database state produced by a
successful pass is a no-op — every bundled migration id is recorded in the
ledger, so every migration is skipped and the second pass performs no
database call beyond ensuring the ledger table, leaving ledger and schema
unchanged. -/
theorem claim_C1_ensure_idempotent (fails fails2 : String → Bool)
    (migs : List Migration) (db : DbState)
    (hne : ∀ m ∈ migs, m.id ≠ "")
    (h : (runMigrations fails migs db).error = none) :
    runMigrations fails2 migs (runMigrations fails migs db).db =
      { trace := [DbEvent.exec ensureMigrationsTableSql],
        db := (runMigrations fails migs db).db, error := none, failedId := none } := by
  have hpend : (runPending fails (getAppliedMigrations db) db migs).error = none := by
    simpa [runMigrations] using h
  have hdb : (runMigrations fails migs db).db
      = (runPending fails (getAppliedMigrations db) db migs).db := by
    simp [runMigrations]
  have hcover := runPending_success_covers fails (getAppliedMigrations db) migs db hpend
  have hall : ∀ m ∈ migs, m.id ∈ getAppliedMigrations (runMigrations fails migs db).db := by
    intro m hm
    have hmne : m.id ≠ "" := hne m hm
    rcases hcover m hm with hap | hled
    · have hmem : m.id ∈ db.ledger := by
        have := List.mem_filter.mp hap
        exact this.1
      obtain ⟨t, ht⟩ := runPending_ledger_extends fails (getAppliedMigrations db) migs db
      rw [hdb]
      refine List.mem_filter.mpr ⟨?_, by simpa using hmne⟩
      rw [ht]
      exact List.mem_append.mpr (Or.inl hmem)
    · rw [hdb]
      refine List.mem_filter.mpr ⟨by rw [← hdb]; exact hled, by simpa using hmne⟩
  rw [show runMigrations fails2 migs (runMigrations fails migs db).db
      = { runPending fails2 (getAppliedMigrations (runMigrations fails migs db).db)
            (runMigrations fails migs db).db migs with
          trace := DbEvent.exec ensureMigrationsTableSql ::
            (runPending fails2 (getAppliedMigrations (runMigrations fails migs db).db)
              (runMigrations fails migs db).db migs).trace } from rfl]
  rw [runPending_skip_all fails2 (getAppliedMigrations (runMigrations fails migs db).db)
    migs (runMigrations fails migs db).db hall]

/-- Witness for C1 at a concrete database and migration list. -/
theorem claim_C1_ensure_idempotent_witness :
    runMigrations (fun _ => false)
        [{ id := "0001_a", statements := ["CREATE TABLE a (x INT)"] }]
        (runMigrations (fun _ => false)
          [{ id := "0001_a", statements := ["CREATE TABLE a (x INT)"] }]
          { ledger := [], schemaLog := [] }).db =
      { trace := [DbEvent.exec ensureMigrationsTableSql],
        db := (runMigrations (fun _ => false)
          [{ id := "0001_a", statements := ["CREATE TABLE a (x INT)"] }]
          { ledger := [], schemaLog := [] }).db, error := none, failedId := none } :=
  claim_C1_ensure_idempotent (fun _ => false) (fun _ => false)
    [{ id := "0001_a", statements := ["CREATE TABLE a (x INT)"] }]
    { ledger := [], schemaLog := [] } (by decide) (by decide)


/-- A migration containing a failing statement cannot apply cleanly. -/
lemma applyMigration_error_of_fails (fails : String → Bool) (db : DbState)
    (m : Migration) (hex : ∃ s ∈ m.statements, fails s = true) :
    ((applyMigration fails db m).error).isSome := by
  obtain ⟨s, hs, hf⟩ := hex
  unfold applyMigration
  rw [partition_foldl_eq m.statements [] []]
  simp only [List.nil_append]
  rcases hp : (runStatements fails db.schemaLog
      (m.statements.filter (fun s => isPragma s))).error with _ | e1
  · rcases ht : (runStatements fails
        (runStatements fails db.schemaLog (m.statements.filter (fun s => isPragma s))).log
        (m.statements.filter (fun s => !(isPragma s)))).error with _ | e2
    · exfalso
      by_cases hpr : isPragma s
      · have := runStatements_error_of_fails fails db.schemaLog
          (m.statements.filter (fun s => isPragma s))
          ⟨s, List.mem_filter.mpr ⟨hs, hpr⟩, hf⟩
        rw [hp] at this
        simp at this
      · have := runStatements_error_of_fails fails
          (runStatements fails db.schemaLog (m.statements.filter (fun s => isPragma s))).log
          (m.statements.filter (fun s => !(isPragma s)))
          ⟨s, List.mem_filter.mpr ⟨hs, by simpa using hpr⟩, hf⟩
        rw [ht] at this
        simp at this
    · simp [ht]
  · simp [hp]

/-- C3 (amended): if a migration contains a failing statement,
`applyMigration` raises an error, adds no entry to the ledger (it is left
exactly as it was), keeps every previously committed statement and commits
at most PRAGMA statements of this migration (all transactional changes are
rolled back), and the error message embeds the failing statement; the
migration id is additionally embedded whenever the failing statement is
transactional (a failing PRAGMA propagates the bare `runStatement` error,
which omits the id). -/
theorem claim_C3_failing_statement_rollback (fails : String → Bool) (db : DbState)
    (m : Migration) (hex : ∃ s ∈ m.statements, fails s = true) :
    ∃ e, (applyMigration fails db m).error = some e ∧
      (applyMigration fails db m).db.ledger = db.ledger ∧
      (∃ t, (applyMigration fails db m).db.schemaLog = db.schemaLog ++ t ∧
        ∀ s ∈ t, isPragma s = true ∧ s ∈ m.statements) ∧
      ∃ s, s ∈ m.statements ∧ fails s = true ∧ s.toList <:+: e.toList ∧
        (isPragma s = false → m.id.toList <:+: e.toList) := by
  obtain ⟨e, he⟩ := Option.isSome_iff_exists.mp (applyMigration_error_of_fails fails db m hex)
  obtain ⟨h1, _, h3, h4⟩ := applyMigration_error fails db m e he
  exact ⟨e, he, h1, h3, h4⟩

/-- Witness for C3 (amended) at a concrete migration with a failing
transactional statement. -/
theorem claim_C3_failing_statement_rollback_witness :
    ∃ e, (applyMigration (fun s => s == "BAD STATEMENT")
        { ledger := ["0000_base"], schemaLog := ["CREATE TABLE base (x INT)"] }
        { id := "0001_init", statements := ["PRAGMA foreign_keys = ON", "BAD STATEMENT"] }).error
        = some e ∧
      (applyMigration (fun s => s == "BAD STATEMENT")
        { ledger := ["0000_base"], schemaLog := ["CREATE TABLE base (x INT)"] }
        { id := "0001_init", statements := ["PRAGMA foreign_keys = ON", "BAD STATEMENT"] }).db.ledger
        = ["0000_base"] ∧
      (∃ t, (applyMigration (fun s => s == "BAD STATEMENT")
        { ledger := ["0000_base"], schemaLog := ["CREATE TABLE base (x INT)"] }
        { id := "0001_init", statements := ["PRAGMA foreign_keys = ON", "BAD STATEMENT"] }).db.schemaLog
          = ["CREATE TABLE base (x INT)"] ++ t ∧
        ∀ s ∈ t, isPragma s = true ∧
          s ∈ ["PRAGMA foreign_keys = ON", "BAD STATEMENT"]) ∧
      ∃ s, s ∈ ["PRAGMA foreign_keys = ON", "BAD STATEMENT"] ∧
        (fun s => s == "BAD STATEMENT") s = true ∧ s.toList <:+: e.toList ∧
        (isPragma s = false → "0001_init".toList <:+: e.toList) :=
  claim_C3_failing_statement_rollback (fun s => s == "BAD STATEMENT")
    { ledger := ["0000_base"], schemaLog := ["CREATE TABLE base (x INT)"] }
    { id := "0001_init", statements := ["PRAGMA foreign_keys = ON", "BAD STATEMENT"] }
    (by decide)

/-- Counterexample to C3 as stated: when the failing statement is a PRAGMA,
it fails outside the transaction and outside the catch block, so the raised
error is the bare `runStatement` message, which names the failing statement
but not the migration id. -/
theorem claim_C3_counterexample :
    (applyMigration (fun s => s == "PRAGMA journal_mode = WAL")
        { ledger := [], schemaLog := [] }
        { id := "0001_init", statements := ["PRAGMA journal_mode = WAL"] }).error =
      some "Failed to execute statement: PRAGMA journal_mode = WAL" ∧
      ¬ ("0001_init".toList <:+:
        "Failed to execute statement: PRAGMA journal_mode = WAL".toList) := by
  constructor
  · decide
  · intro hinf
    have := hinf.sublist.subset (by decide : '0' ∈ "0001_init".toList)
    revert this
    decide

/-- C6: when a migration applies cleanly, its PRAGMA statements (in order)
are executed before the transaction opens, and exactly its non-PRAGMA
statements (in order) together with the ledger insert run between `BEGIN`
and `COMMIT`. -/
theorem claim_C6_pragma_outside_transaction (fails : String → Bool) (db : DbState)
    (m : Migration) (h : (applyMigration fails db m).error = none) :
    (applyMigration fails db m).trace =
      (m.statements.filter (fun s => isPragma s)).map DbEvent.run
        ++ [DbEvent.exec "BEGIN TRANSACTION;"]
        ++ (m.statements.filter (fun s => !(isPragma s))).map DbEvent.run
        ++ [DbEvent.insertLedger m.id, DbEvent.exec "COMMIT;"] :=
  (applyMigration_success fails db m h).2.2.2

/-- Witness for C6 at a concrete migration mixing PRAGMA and DDL
statements. -/
theorem claim_C6_pragma_outside_transaction_witness :
    (applyMigration (fun _ => false) { ledger := [], schemaLog := [] }
        { id := "0002_t",
          statements := ["CREATE TABLE a (x INT)", "PRAGMA foreign_keys = ON"] }).trace =
      (["CREATE TABLE a (x INT)", "PRAGMA foreign_keys = ON"].filter
          (fun s => isPragma s)).map DbEvent.run
        ++ [DbEvent.exec "BEGIN TRANSACTION;"]
        ++ (["CREATE TABLE a (x INT)", "PRAGMA foreign_keys = ON"].filter
          (fun s => !(isPragma s))).map DbEvent.run
        ++ [DbEvent.insertLedger "0002_t", DbEvent.exec "COMMIT;"] :=
  claim_C6_pragma_outside_transaction (fun _ => false) { ledger := [], schemaLog := [] }
    { id := "0002_t",
      statements := ["CREATE TABLE a (x INT)", "PRAGMA foreign_keys = ON"] }
    (by decide)


/-- A failed pass pinpoints the failing migration: it is recorded in
`failedId`, its id is absent from the resulting ledger, and it is the first
migration of the list that a fresh pass over the resulting ledger would
still consider pending. -/
lemma runPending_error_firstPending :
    ∀ (migs : List Migration) (fails : String → Bool) (applied : List String)
      (db : DbState),
      (migs.map Migration.id).Nodup →
      (∀ m ∈ migs, m.id ∈ applied → m.id ∈ db.ledger) →
      (∀ m ∈ migs, m.id ∉ applied → m.id ∉ db.ledger) →
      ∀ e, (runPending fails applied db migs).error = some e →
      ∃ m, m ∈ migs ∧ (runPending fails applied db migs).failedId = some m.id ∧
        m.id ∉ (runPending fails applied db migs).db.ledger ∧
        (migs.filter
          (fun x => !(decide (x.id ∈ (runPending fails applied db migs).db.ledger)))).head?
          = some m := by
  intro migs
  induction migs with
  | nil => intro fails applied db _ _ _ e he; simp [runPending] at he
  | cons m rest ih =>
    intro fails applied db hnd happl hfresh e he
    by_cases hm : m.id ∈ applied
    · have hrw : runPending fails applied db (m :: rest) = runPending fails applied db rest := by
        simp [runPending, hm]
      rw [hrw] at he ⊢
      obtain ⟨x, hx, hfid, hxled, hhead⟩ := ih fails applied db
        (by simpa using (List.nodup_cons.mp (by simpa using hnd)).2)
        (fun y hy => happl y (List.mem_cons_of_mem m hy))
        (fun y hy => hfresh y (List.mem_cons_of_mem m hy)) e he
      refine ⟨x, List.mem_cons_of_mem m hx, hfid, hxled, ?_⟩
      rw [List.filter_cons]
      have hmled : m.id ∈ (runPending fails applied db rest).db.ledger := by
        obtain ⟨t, ht⟩ := runPending_ledger_extends fails applied rest db
        rw [ht]
        exact List.mem_append.mpr (Or.inl (happl m (List.mem_cons_self m rest) hm))
      simp only [hmled, decide_True, Bool.not_true]
      simpa using hhead
    · rcases herr : (applyMigration fails db m).error with _ | e1
      · -- head migration applied cleanly; the failure is further down
        have hdbeq : (runPending fails applied db (m :: rest)).db
            = (runPending fails applied (applyMigration fails db m).db rest).db := by
          simp [runPending, hm, herr]
        have hfi : (runPending fails applied db (m :: rest)).failedId
            = (runPending fails applied (applyMigration fails db m).db rest).failedId := by
          simp [runPending, hm, herr]
        have herr2 : (runPending fails applied (applyMigration fails db m).db rest).error
            = some e := by
          simpa [runPending, hm, herr] using he
        have hmid : m.id ∉ rest.map Migration.id :=
          (List.nodup_cons.mp (by simpa using hnd)).1
        obtain ⟨x, hx, hfid, hxled, hhead⟩ := ih fails applied (applyMigration fails db m).db
          (by simpa using (List.nodup_cons.mp (by simpa using hnd)).2)
          (fun y hy hya => by
            rw [(applyMigration_success fails db m herr).1]
            exact List.mem_append.mpr (Or.inl (happl y (List.mem_cons_of_mem m hy) hya)))
          (fun y hy hya => by
            rw [(applyMigration_success fails db m herr).1]
            intro hcon
            rcases List.mem_append.mp hcon with hcon | hcon
            · exact hfresh y (List.mem_cons_of_mem m hy) hya hcon
            · have : y.id = m.id := by simpa using hcon
              exact hmid (this ▸ List.mem_map_of_mem Migration.id hy))
          e herr2
        refine ⟨x, List.mem_cons_of_mem m hx, by rw [hfi]; exact hfid, by rw [hdbeq]; exact hxled, ?_⟩
        rw [List.filter_cons]
        have hmled : m.id ∈ (runPending fails applied db (m :: rest)).db.ledger := by
          rw [hdbeq]
          obtain ⟨t, ht⟩ :=
            runPending_ledger_extends fails applied rest (applyMigration fails db m).db
          rw [ht, (applyMigration_success fails db m herr).1]
          simp
        simp only [hmled, decide_True, Bool.not_true]
        rw [hdbeq]
        simpa using hhead
      · -- the head migration itself fails
        have hrw : runPending fails applied db (m :: rest) = applyMigration fails db m := by
          simp [runPending, hm, herr]
        rw [hrw]
        obtain ⟨hled, hfid, _, _⟩ := applyMigration_error fails db m e1 herr
        have hmnot : m.id ∉ (applyMigration fails db m).db.ledger := by
          rw [hled]
          exact hfresh m (List.mem_cons_self m rest) hm
        refine ⟨m, List.mem_cons_self m rest, hfid, hmnot, ?_⟩
        rw [List.filter_cons]
        simp [hmnot]

/-- C4: when a migration pass fails, the schema middleware answers the
triggering request with the 500 `Database not ready` error response, the
failing migration is not recorded in the ledger, the next pass
over the resulting state starts at exactly that migration, and the
rejection handler clears the cached in-process promise so a next invocation
runs a fresh pass. -/
theorem claim_C4_failure_semantics (fails : String → Bool) (migs : List Migration)
    (db : DbState) (e : String)
    (hnd : (migs.map Migration.id).Nodup)
    (hne : ∀ m ∈ migs, m.id ≠ "")
    (he : (runMigrations fails migs db).error = some e) :
    schemaMiddleware (runMigrations fails migs db) =
      some { status := 500, body := [("error", "Database not ready")] } ∧
      (∃ m, m ∈ migs ∧ (runMigrations fails migs db).failedId = some m.id ∧
        m.id ∉ (runMigrations fails migs db).db.ledger ∧
        firstPendingMigration migs
          (getAppliedMigrations (runMigrations fails migs db).db) = some m) ∧
      ∀ g : SchemaGuard, (guardSettle g false).schemaInitPromise = none := by
  have hpe : (runPending fails (getAppliedMigrations db) db migs).error = some e := by
    simpa [runMigrations] using he
  obtain ⟨m, hmmem, hfid, hmled, hhead⟩ :=
    runPending_error_firstPending migs fails (getAppliedMigrations db) db hnd
      (fun y _ hya => (List.mem_filter.mp hya).1)
      (fun y hy hya hyl => hya
        (List.mem_filter.mpr ⟨hyl, by simpa using hne y hy⟩))
      e hpe
  refine ⟨by simp [schemaMiddleware, he, errorResponse], ⟨m, hmmem, ?_, ?_, ?_⟩, ?_⟩
  · simpa [runMigrations] using hfid
  · simpa [runMigrations] using hmled
  · rw [show firstPendingMigration migs (getAppliedMigrations (runMigrations fails migs db).db)
        = (migs.filter
            (fun x => !(decide (x.id ∈ (runPending fails (getAppliedMigrations db) db migs).db.ledger)))).head? from ?_]
    · exact hhead
    · unfold firstPendingMigration
      congr 1
      apply List.filter_congr
      intro x hx
      have hxne : x.id ≠ "" := hne x hx
      have hiff : (x.id ∈ getAppliedMigrations (runMigrations fails migs db).db)
          ↔ (x.id ∈ (runPending fails (getAppliedMigrations db) db migs).db.ledger) := by
        simp [getAppliedMigrations, runMigrations, List.mem_filter, hxne]
      simp only [hiff]
  · intro g
    simp [guardSettle]

/-- Witness for C4: one failing migration over an empty database. -/
theorem claim_C4_failure_semantics_witness :
    schemaMiddleware (runMigrations (fun s => s == "BROKEN")
        [{ id := "0001_x", statements := ["BROKEN"] }] { ledger := [], schemaLog := [] }) =
      some { status := 500, body := [("error", "Database not ready")] } ∧
      (∃ m, m ∈ ([{ id := "0001_x", statements := ["BROKEN"] }] : List Migration) ∧
        (runMigrations (fun s => s == "BROKEN")
          [{ id := "0001_x", statements := ["BROKEN"] }]
          { ledger := [], schemaLog := [] }).failedId = some m.id ∧
        m.id ∉ (runMigrations (fun s => s == "BROKEN")
          [{ id := "0001_x", statements := ["BROKEN"] }]
          { ledger := [], schemaLog := [] }).db.ledger ∧
        firstPendingMigration [{ id := "0001_x", statements := ["BROKEN"] }]
          (getAppliedMigrations ((runMigrations (fun s => s == "BROKEN")
            [{ id := "0001_x", statements := ["BROKEN"] }]
            { ledger := [], schemaLog := [] }).db)) = some m) ∧
      ∀ g : SchemaGuard, (guardSettle g false).schemaInitPromise = none :=
  claim_C4_failure_semantics (fun s => s == "BROKEN")
    [{ id := "0001_x", statements := ["BROKEN"] }] { ledger := [], schemaLog := [] }
    ("Failed to apply migration 0001_x while executing \"BROKEN\": Failed to execute statement: BROKEN")
    (by decide) (by decide) (by decide)


/-! ## Lemmas about the `MIGRATIONS` builder -/

/-- `lexLe` is total. -/
lemma lexLe_total : ∀ x y : List Char, lexLe x y = true ∨ lexLe y x = true := by
  intro x
  induction x with
  | nil => intro y; exact Or.inl rfl
  | cons a as ih =>
    intro y
    cases y with
    | nil => exact Or.inr rfl
    | cons b bs =>
      by_cases hab : a = b
      · subst hab
        rcases ih bs with h | h
        · exact Or.inl (by simpa [lexLe] using h)
        · exact Or.inr (by simpa [lexLe] using h)
      · rcases lt_trichotomy a b with hlt | heq | hgt
        · exact Or.inl (by simp [lexLe, hab, hlt])
        · exact absurd heq hab
        · exact Or.inr (by simp [lexLe, Ne.symm hab, hgt])

/-- `lexLe` is transitive. -/
lemma lexLe_trans : ∀ x y z : List Char,
    lexLe x y = true → lexLe y z = true → lexLe x z = true := by
  intro x
  induction x with
  | nil => intro y z _ _; rfl
  | cons a as ih =>
    intro y z hxy hyz
    cases y with
    | nil => simp [lexLe] at hxy
    | cons b bs =>
      cases z with
      | nil => simp [lexLe] at hyz
      | cons c cs =>
        by_cases hab : a = b <;> by_cases hbc : b = c
        · subst hab; subst hbc
          simp only [lexLe, if_pos rfl] at hxy hyz ⊢
          exact ih bs cs hxy hyz
        · subst hab
          simp only [lexLe, if_pos rfl] at hxy
          simp only [lexLe, if_neg hbc, decide_eq_true_eq] at hyz
          simp [lexLe, hbc, hyz]
        · subst hbc
          simp only [lexLe, if_neg hab, decide_eq_true_eq] at hxy
          simp [lexLe, hab, hxy]
        · simp only [lexLe, if_neg hab, decide_eq_true_eq] at hxy
          simp only [lexLe, if_neg hbc, decide_eq_true_eq] at hyz
          have hac : a < c := lt_trans hxy hyz
          simp [lexLe, ne_of_lt hac, hac]

/-- The sort step of the builder really sorts by identifier. -/
lemma sortStaged_sorted (staged : List StagedMigration) :
    (sortStaged staged).Pairwise (fun a b => localeLe a.id b.id = true) :=
  @List.sorted_insertionSort StagedMigration (fun a b => localeLe a.id b.id = true) _
    ⟨fun a b => lexLe_total a.id.toList b.id.toList⟩
    ⟨fun a b c hab hbc => lexLe_trans a.id.toList b.id.toList c.id.toList hab hbc⟩ staged

/-- The sort step permutes the staged entries. -/
lemma sortStaged_perm (staged : List StagedMigration) :
    List.Perm (sortStaged staged) staged := by
  unfold sortStaged
  exact List.perm_insertionSort (fun a b => localeLe a.id b.id = true) staged

/-- The dedup loop turns a (weakly) sorted staged list it accepts into a
strictly sorted migration list. -/
lemma dedupMigrations_sorted :
    ∀ (staged : List StagedMigration) (seen : List String) (normalized : List Migration)
      (result : List Migration),
      dedupMigrations seen normalized staged = .ok result →
      staged.Pairwise (fun a b => localeLe a.id b.id = true) →
      (∀ x ∈ normalized, x.id ∈ seen) →
      (∀ e ∈ staged, ∀ x ∈ normalized, localeLe x.id e.id = true) →
      normalized.Pairwise (fun a b => localeLe a.id b.id = true ∧ a.id ≠ b.id) →
      result.Pairwise (fun a b => localeLe a.id b.id = true ∧ a.id ≠ b.id) := by
  intro staged
  induction staged with
  | nil =>
    intro seen normalized result hok _ _ _ hpw
    simp only [dedupMigrations] at hok
    exact (Except.ok.inj hok) ▸ hpw
  | cons entry rest ih =>
    intro seen normalized result hok hsorted hseen hbound hpw
    by_cases hentry : entry.id ∈ seen
    · rw [show dedupMigrations seen normalized (entry :: rest)
          = .error (duplicateMigrationMsg entry.id entry.filePath) by
        simp [dedupMigrations, hentry]] at hok
      exact absurd hok (by simp)
    · rw [show dedupMigrations seen normalized (entry :: rest)
          = (if entry.statements.isEmpty then
              dedupMigrations (entry.id :: seen) normalized rest
            else dedupMigrations (entry.id :: seen)
              (normalized ++ [{ id := entry.id, statements := entry.statements }]) rest) by
        simp [dedupMigrations, hentry]] at hok
      have hrs : rest.Pairwise (fun a b => localeLe a.id b.id = true) :=
        (List.pairwise_cons.mp hsorted).2
      have hhead : ∀ e ∈ rest, localeLe entry.id e.id = true :=
        (List.pairwise_cons.mp hsorted).1
      by_cases hempty : entry.statements.isEmpty
      · rw [if_pos hempty] at hok
        exact ih (entry.id :: seen) normalized result hok hrs
          (fun x hx => List.mem_cons_of_mem entry.id (hseen x hx))
          (fun e he x hx => hbound e (List.mem_cons_of_mem entry he) x hx) hpw
      · rw [if_neg hempty] at hok
        refine ih (entry.id :: seen)
          (normalized ++ [{ id := entry.id, statements := entry.statements }]) result hok hrs
          ?_ ?_ ?_
        · intro x hx
          rcases List.mem_append.mp hx with hx | hx
          · exact List.mem_cons_of_mem entry.id (hseen x hx)
          · have : x = { id := entry.id, statements := entry.statements } := by simpa using hx
            rw [this]
            exact List.mem_cons_self entry.id seen
        · intro e he x hx
          rcases List.mem_append.mp hx with hx | hx
          · exact hbound e (List.mem_cons_of_mem entry he) x hx
          · have : x = { id := entry.id, statements := entry.statements } := by simpa using hx
            rw [this]
            exact hhead e he
        · refine List.pairwise_append.mpr ⟨hpw, by simp, ?_⟩
          intro x hx y hy
          have hy2 : y = { id := entry.id, statements := entry.statements } := by simpa using hy
          rw [hy2]
          refine ⟨hbound entry (List.mem_cons_self entry rest) x hx, ?_⟩
          intro hcon
          have hxid : x.id = entry.id := hcon
          exact hentry (hxid ▸ hseen x hx)


/-- A failed `applyMigration` never records a ledger insert in its trace. -/
lemma applyMigration_error_trace_no_ledger (fails : String → Bool) (db : DbState)
    (m : Migration) (e : String) (h : (applyMigration fails db m).error = some e) :
    (applyMigration fails db m).trace.filterMap ledgerEventId = [] := by
  revert h
  unfold applyMigration
  rw [partition_foldl_eq m.statements [] []]
  simp only [List.nil_append]
  rcases hp : (runStatements fails db.schemaLog
      (m.statements.filter (fun s => isPragma s))).error with _ | e1
  · rcases ht : (runStatements fails
        (runStatements fails db.schemaLog (m.statements.filter (fun s => isPragma s))).log
        (m.statements.filter (fun s => !(isPragma s)))).error with _ | e2
    · intro h
      simp at h
    · intro _
      have h1 := runStatements_trace_no_ledger fails db.schemaLog
        (m.statements.filter (fun s => isPragma s))
      have h2 := runStatements_trace_no_ledger fails
        (runStatements fails db.schemaLog (m.statements.filter (fun s => isPragma s))).log
        (m.statements.filter (fun s => !(isPragma s)))
      simp only [MigResult.trace, List.filterMap_append]
      rw [show (fun e => match e with
          | DbEvent.insertLedger id => some id
          | _ => none) = ledgerEventId from rfl] at h1 h2
      simp [h1, h2, ledgerEventId]
  · intro _
    have h1 := runStatements_trace_no_ledger fails db.schemaLog
      (m.statements.filter (fun s => isPragma s))
    rw [show (fun e => match e with
        | DbEvent.insertLedger id => some id
        | _ => none) = ledgerEventId from rfl] at h1
    simpa using h1

/-- A successful `applyMigration` records exactly its own id in the
trace. -/
lemma filterMap_ledgerEventId_run (l : List String) :
    List.filterMap (ledgerEventId ∘ DbEvent.run) l = [] := by
  induction l with
  | nil => rfl
  | cons s rest ih => simp [Function.comp, ledgerEventId, ih]

lemma applyMigration_success_trace_ledger (fails : String → Bool) (db : DbState)
    (m : Migration) (h : (applyMigration fails db m).error = none) :
    (applyMigration fails db m).trace.filterMap ledgerEventId = [m.id] := by
  rw [(applyMigration_success fails db m h).2.2.2]
  simp [List.filterMap_append, filterMap_ledgerEventId_run, ledgerEventId]

/-- The ledger inserts of a pass, in trace order, form a sublist of the
migration list's ids: migrations are recorded (hence applied) in list
order. -/
lemma runPending_trace_ledger_sublist (fails : String → Bool) (applied : List String) :
    ∀ (migs : List Migration) (db : DbState),
      List.Sublist ((runPending fails applied db migs).trace.filterMap ledgerEventId)
        (migs.map Migration.id) := by
  intro migs
  induction migs with
  | nil => intro db; simp [runPending]
  | cons m rest ih =>
    intro db
    by_cases hm : m.id ∈ applied
    · rw [show runPending fails applied db (m :: rest) = runPending fails applied db rest by
        simp [runPending, hm]]
      exact (ih db).cons m.id
    · rcases herr : (applyMigration fails db m).error with _ | e
      · rw [show (runPending fails applied db (m :: rest)).trace
            = (applyMigration fails db m).trace
              ++ (runPending fails applied (applyMigration fails db m).db rest).trace by
          simp [runPending, hm, herr]]
        rw [List.filterMap_append, applyMigration_success_trace_ledger fails db m herr]
        exact (ih (applyMigration fails db m).db).cons₂ m.id
      · rw [show (runPending fails applied db (m :: rest)).trace
            = (applyMigration fails db m).trace by simp [runPending, hm, herr]]
        rw [applyMigration_error_trace_no_ledger fails db m e herr]
        exact List.nil_sublist _

/-- C2: the `MIGRATIONS` builder sorts the bundled set — whatever the
iteration order of the sources, the identifiers of the built list are
strictly increasing — and a pass records (hence applies) migrations as a
sublist of that order, so a migration with a smaller identifier is always
applied before one with a larger identifier. -/
theorem claim_C2_lexicographic_order (sources : List (String × String))
    (migs : List Migration) (h : buildMigrations sources = .ok migs) :
    migs.Pairwise (fun a b => localeLe a.id b.id = true ∧ a.id ≠ b.id) ∧
      ∀ (fails : String → Bool) (db : DbState),
        List.Sublist ((runMigrations fails migs db).trace.filterMap ledgerEventId)
          (migs.map Migration.id) := by
  constructor
  · revert h
    unfold buildMigrations
    rcases hd : dedupMigrations [] [] (sortStaged (stageMigrations sources)) with e | normalized
    · intro h
      simp at h
    · intro h
      have h2 : (if normalized.isEmpty then Except.error noMigrationsMsg
          else Except.ok normalized) = Except.ok migs := h
      have hmig : normalized = migs := by
        by_cases hemp : normalized.isEmpty
        · rw [if_pos hemp] at h2
          exact absurd h2 (by simp)
        · rw [if_neg hemp] at h2
          simpa using h2
      rw [← hmig]
      exact dedupMigrations_sorted (sortStaged (stageMigrations sources)) [] [] normalized
        hd (sortStaged_sorted (stageMigrations sources)) (by simp) (by simp) (by simp)
  · intro fails db
    rw [show (runMigrations fails migs db).trace
        = DbEvent.exec ensureMigrationsTableSql
          :: (runPending fails (getAppliedMigrations db) db migs).trace from rfl]
    rw [show (DbEvent.exec ensureMigrationsTableSql
        :: (runPending fails (getAppliedMigrations db) db migs).trace).filterMap ledgerEventId
        = (runPending fails (getAppliedMigrations db) db migs).trace.filterMap ledgerEventId by
      simp [ledgerEventId]]
    exact runPending_trace_ledger_sublist fails (getAppliedMigrations db) migs db

/-- Witness for C2: two sources listed out of order are built in ascending
identifier order and recorded in that order. -/
theorem claim_C2_lexicographic_order_witness :
    ([{ id := "0001_a", statements := ["SELECT 1"] },
      { id := "0002_b", statements := ["SELECT 2"] }] : List Migration).Pairwise
        (fun a b => localeLe a.id b.id = true ∧ a.id ≠ b.id) ∧
      List.Sublist ((runMigrations (fun _ => false)
        [{ id := "0001_a", statements := ["SELECT 1"] },
          { id := "0002_b", statements := ["SELECT 2"] }]
        { ledger := [], schemaLog := [] }).trace.filterMap ledgerEventId)
        (([{ id := "0001_a", statements := ["SELECT 1"] },
          { id := "0002_b", statements := ["SELECT 2"] }] : List Migration).map Migration.id) :=
  ⟨(claim_C2_lexicographic_order
      [("m/0002_b.sql", "SELECT 2;"), ("m/0001_a.sql", "SELECT 1;")] _ (by rfl)).1,
    (claim_C2_lexicographic_order
      [("m/0002_b.sql", "SELECT 2;"), ("m/0001_a.sql", "SELECT 1;")] _ (by rfl)).2
      (fun _ => false) { ledger := [], schemaLog := [] }⟩


/-- If the ids already seen plus the ids still to process contain a
duplicate, the dedup loop rejects with a `duplicateMigrationMsg` naming an
identifier that occurs at least twice in that combined multiset, together
with one of its file paths. -/
lemma dedupMigrations_dup :
    ∀ (staged : List StagedMigration) (seen : List String) (normalized : List Migration),
      seen.Nodup →
      ¬ (seen ++ staged.map StagedMigration.id).Nodup →
      ∃ e, e ∈ staged ∧
        dedupMigrations seen normalized staged
          = .error (duplicateMigrationMsg e.id e.filePath) ∧
        2 ≤ (seen ++ staged.map StagedMigration.id).count e.id := by
  intro staged
  induction staged with
  | nil =>
    intro seen normalized hseen hdup
    exact absurd (by simpa using hseen) hdup
  | cons entry rest ih =>
    intro seen normalized hseen hdup
    by_cases hentry : entry.id ∈ seen
    · refine ⟨entry, List.mem_cons_self entry rest, by simp [dedupMigrations, hentry], ?_⟩
      have h1 : 1 ≤ seen.count entry.id := List.count_pos_iff.mpr hentry
      have h2 : 1 ≤ ((entry :: rest).map StagedMigration.id).count entry.id := by
        refine List.count_pos_iff.mpr ?_
        simp
      rw [List.count_append]
      omega
    · have hperm : List.Perm (seen ++ (entry :: rest).map StagedMigration.id)
          ((entry.id :: seen) ++ rest.map StagedMigration.id) := by
        simp only [List.map_cons]
        exact (List.perm_middle).trans (List.Perm.refl _)
      have hseen2 : (entry.id :: seen).Nodup := List.nodup_cons.mpr ⟨hentry, hseen⟩
      have hdup2 : ¬ ((entry.id :: seen) ++ rest.map StagedMigration.id).Nodup := by
        intro hcon
        exact hdup (hperm.nodup_iff.mpr hcon)
      by_cases hempty : entry.statements.isEmpty
      · obtain ⟨e, hemem, hres, hcnt⟩ := ih (entry.id :: seen) normalized hseen2 hdup2
        refine ⟨e, List.mem_cons_of_mem entry hemem, ?_, ?_⟩
        · rw [show dedupMigrations seen normalized (entry :: rest)
              = dedupMigrations (entry.id :: seen) normalized rest by
            simp [dedupMigrations, hentry, hempty]]
          exact hres
        · rw [hperm.count_eq]
          exact hcnt
      · obtain ⟨e, hemem, hres, hcnt⟩ := ih (entry.id :: seen)
          (normalized ++ [{ id := entry.id, statements := entry.statements }]) hseen2 hdup2
        refine ⟨e, List.mem_cons_of_mem entry hemem, ?_, ?_⟩
        · rw [show dedupMigrations seen normalized (entry :: rest)
              = dedupMigrations (entry.id :: seen)
                (normalized ++ [{ id := entry.id, statements := entry.statements }]) rest by
            simp [dedupMigrations, hentry, hempty]]
          exact hres
        · rw [hperm.count_eq]
          exact hcnt

/-- C5: when two bundled migration files share an identifier, startup fails
while building the `MIGRATIONS` list — the thrown error names a duplicated
identifier (one occurring at least twice among the extracted ids) and one of
its file paths — and no migration statement ever executes: the trace is
empty and the database state is untouched. -/
theorem claim_C5_duplicate_ids_fatal (fails : String → Bool)
    (sources : List (String × String)) (db : DbState)
    (hdup : ¬ (sources.map (fun src => extractMigrationId src.1)).Nodup) :
    ∃ id filePath, startup fails sources db =
        { trace := [], db := db,
          error := some (duplicateMigrationMsg id filePath), failedId := none } ∧
      filePath ∈ sources.map Prod.fst ∧
      2 ≤ (sources.map (fun src => extractMigrationId src.1)).count id := by
  have hids : (sortStaged (stageMigrations sources)).map StagedMigration.id
      = ([] : List String) ++ (sortStaged (stageMigrations sources)).map StagedMigration.id := by
    simp
  have hpermsort : List.Perm ((sortStaged (stageMigrations sources)).map StagedMigration.id)
      (sources.map (fun src => extractMigrationId src.1)) := by
    have h1 : List.Perm (sortStaged (stageMigrations sources)) (stageMigrations sources) :=
      sortStaged_perm (stageMigrations sources)
    have h2 := h1.map StagedMigration.id
    rw [show (stageMigrations sources).map StagedMigration.id
        = sources.map (fun src => extractMigrationId src.1) by
      simp [stageMigrations, List.map_map]] at h2
    exact h2
  have hdup2 : ¬ (([] : List String)
      ++ (sortStaged (stageMigrations sources)).map StagedMigration.id).Nodup := by
    intro hcon
    exact hdup (hpermsort.nodup_iff.mp (by simpa using hcon))
  obtain ⟨e, hemem, hres, hcnt⟩ :=
    dedupMigrations_dup (sortStaged (stageMigrations sources)) [] [] List.nodup_nil hdup2
  refine ⟨e.id, e.filePath, ?_, ?_, ?_⟩
  · rw [show startup fails sources db
        = (match buildMigrations sources with
          | .error err => { trace := [], db := db, error := some err, failedId := none }
          | .ok migs => runMigrations fails migs db) from rfl]
    rw [show buildMigrations sources
        = .error (duplicateMigrationMsg e.id e.filePath) by
      unfold buildMigrations
      rw [hres]]
  · have hmem2 : e ∈ stageMigrations sources := (sortStaged_perm _).mem_iff.mp hemem
    obtain ⟨src, hsrc, hsrceq⟩ := List.mem_map.mp hmem2
    have : e.filePath = src.1 := by rw [← hsrceq]
    rw [this]
    exact List.mem_map_of_mem Prod.fst hsrc
  · rw [← hpermsort.count_eq]
    simpa using hcnt

/-- Witness for C5: two files whose names reduce to the same identifier. -/
theorem claim_C5_duplicate_ids_fatal_witness :
    ∃ id filePath, startup (fun _ => false)
        [("m/0001_a.sql", "SELECT 1;"), ("n/0001_a.sql", "SELECT 2;")]
        { ledger := [], schemaLog := [] } =
        { trace := [], db := { ledger := [], schemaLog := [] },
          error := some (duplicateMigrationMsg id filePath), failedId := none } ∧
      filePath ∈ ([("m/0001_a.sql", "SELECT 1;"), ("n/0001_a.sql", "SELECT 2;")].map Prod.fst) ∧
      2 ≤ ([("m/0001_a.sql", "SELECT 1;"), ("n/0001_a.sql", "SELECT 2;")].map
        (fun src => extractMigrationId src.1)).count id :=
  claim_C5_duplicate_ids_fatal (fun _ => false)
    [("m/0001_a.sql", "SELECT 1;"), ("n/0001_a.sql", "SELECT 2;")]
    { ledger := [], schemaLog := [] } (by decide)


/-! ## Claims about the API layer, the promise guard and pagination -/

/-- Counterexample to C7 as stated: the error responses the worker builds
carry the message under the JSON key `error`, not `message` — the body of
`errorResponse('Unauthorized', 401)` has no `message` field. -/
theorem claim_C7_counterexample :
    (errorResponse "Unauthorized" 401).status = 401 ∧
      (errorResponse "Unauthorized" 401).body.lookup "message" = none ∧
      (errorResponse "Unauthorized" 401).body.lookup "error" = some "Unauthorized" := by
  decide

/-- C7 (amended): every status passed to `errorResponse` across the worker
is one of 400, 401, 404, 500, and the response is a JSON body whose `error`
field carries the message (there is no `message` field). -/
theorem claim_C7_error_categories (message : String) (status : Nat)
    (h : status ∈ errorResponseCallStatuses) :
    ((errorResponse message status).status = 400 ∨
        (errorResponse message status).status = 401 ∨
        (errorResponse message status).status = 404 ∨
        (errorResponse message status).status = 500) ∧
      (errorResponse message status).body.lookup "error" = some message ∧
      (errorResponse message status).body.lookup "message" = none := by
  refine ⟨?_, by simp [errorResponse], by simp [errorResponse]⟩
  simp only [errorResponse]
  simp only [errorResponseCallStatuses, List.mem_cons, List.not_mem_nil, or_false,
    List.mem_singleton] at h
  rcases h with rfl | rfl | rfl | rfl
  · exact Or.inl rfl
  · exact Or.inr (Or.inl rfl)
  · exact Or.inr (Or.inr (Or.inl rfl))
  · exact Or.inr (Or.inr (Or.inr rfl))

/-- Witness for C7 (amended) at the 401 call sites. -/
theorem claim_C7_error_categories_witness :
    ((errorResponse "Unauthorized" 401).status = 400 ∨
        (errorResponse "Unauthorized" 401).status = 401 ∨
        (errorResponse "Unauthorized" 401).status = 404 ∨
        (errorResponse "Unauthorized" 401).status = 500) ∧
      (errorResponse "Unauthorized" 401).body.lookup "error" = some "Unauthorized" ∧
      (errorResponse "Unauthorized" 401).body.lookup "message" = none :=
  claim_C7_error_categories "Unauthorized" 401 (by decide)

/-- Invariant of the promise guard over a failure-free lifetime: either no
pass has started (cold) or exactly pass `0` has, and every call returned
promise `0`. -/
lemma runGuardOps_single_pass :
    ∀ (ops : List GuardOp) (g : SchemaGuard),
      (∀ op ∈ ops, op ≠ GuardOp.settle false) →
      ((g.schemaInitPromise = none ∧ g.nextPromiseId = 0 ∧ g.startedPasses = []) ∨
        (g.schemaInitPromise = some 0 ∧ g.nextPromiseId = 1 ∧ g.startedPasses = [0])) →
      ((runGuardOps g ops).1.startedPasses = [] ∨
          (runGuardOps g ops).1.startedPasses = [0]) ∧
        ∀ p ∈ (runGuardOps g ops).2, p = 0 := by
  intro ops
  induction ops with
  | nil =>
    intro g _ hinv
    rcases hinv with ⟨_, _, h3⟩ | ⟨_, _, h3⟩
    · exact ⟨Or.inl (by simpa [runGuardOps] using h3), by simp [runGuardOps]⟩
    · exact ⟨Or.inr (by simpa [runGuardOps] using h3), by simp [runGuardOps]⟩
  | cons op rest ih =>
    intro g hops hinv
    have hrest : ∀ x ∈ rest, x ≠ GuardOp.settle false :=
      fun x hx => hops x (List.mem_cons_of_mem op hx)
    cases op with
    | call =>
      rcases hinv with ⟨h1, h2, h3⟩ | ⟨h1, h2, h3⟩
      · have hcall : guardCall g = ((⟨some 0, 1, [0]⟩ : SchemaGuard), 0) := by
          obtain ⟨p1, p2, p3⟩ := g
          simp only at h1 h2 h3
          subst h1; subst h2; subst h3
          rfl
        have := ih (⟨some 0, 1, [0]⟩ : SchemaGuard) hrest (Or.inr ⟨rfl, rfl, rfl⟩)
        refine ⟨?_, ?_⟩
        · rw [show (runGuardOps g (GuardOp.call :: rest)).1
              = (runGuardOps (⟨some 0, 1, [0]⟩ : SchemaGuard) rest).1 by
            simp [runGuardOps, hcall]]
          exact this.1
        · intro p hp
          rw [show (runGuardOps g (GuardOp.call :: rest)).2
              = 0 :: (runGuardOps (⟨some 0, 1, [0]⟩ : SchemaGuard) rest).2 by
            simp [runGuardOps, hcall]] at hp
          rcases List.mem_cons.mp hp with rfl | hp
          · rfl
          · exact this.2 p hp
      · have hcall : guardCall g = (g, 0) := by
          obtain ⟨p1, p2, p3⟩ := g
          simp only at h1 h2 h3
          subst h1
          rfl
        have := ih g hrest (Or.inr ⟨h1, h2, h3⟩)
        refine ⟨?_, ?_⟩
        · rw [show (runGuardOps g (GuardOp.call :: rest)).1
              = (runGuardOps g rest).1 by simp [runGuardOps, hcall]]
          exact this.1
        · intro p hp
          rw [show (runGuardOps g (GuardOp.call :: rest)).2
              = 0 :: (runGuardOps g rest).2 by simp [runGuardOps, hcall]] at hp
          rcases List.mem_cons.mp hp with rfl | hp
          · rfl
          · exact this.2 p hp
    | settle success =>
      cases success with
      | false => exact absurd rfl (hops (GuardOp.settle false) (List.mem_cons_self _ rest))
      | true =>
        have hset : guardSettle g true = g := rfl
        rw [show runGuardOps g (GuardOp.settle true :: rest)
            = runGuardOps g rest by simp [runGuardOps, hset]]
        exact ih g hrest hinv

/-- C8: over any failure-free process lifetime — any interleaving of
`ensureDatabaseSchema` calls and successful settlements of the cached
promise, including concurrent first requests, whose calls all run before or
after the single settlement — at most one migration pass is started, and
every call returns the same (first) cached promise. -/
theorem claim_C8_single_pass_guard (ops : List GuardOp)
    (h : ∀ op ∈ ops, op ≠ GuardOp.settle false) :
    (runGuardOps SchemaGuard.init ops).1.startedPasses.length ≤ 1 ∧
      ∀ p ∈ (runGuardOps SchemaGuard.init ops).2, p = 0 := by
  obtain ⟨h1, h2⟩ := runGuardOps_single_pass ops SchemaGuard.init h
    (Or.inl ⟨rfl, rfl, rfl⟩)
  refine ⟨?_, h2⟩
  rcases h1 with h1 | h1 <;> rw [h1] <;> simp

/-- Witness for C8: three concurrent first calls, a successful settlement,
then a later call. -/
theorem claim_C8_single_pass_guard_witness :
    (runGuardOps SchemaGuard.init
        [GuardOp.call, GuardOp.call, GuardOp.call, GuardOp.settle true,
          GuardOp.call]).1.startedPasses.length ≤ 1 ∧
      ∀ p ∈ (runGuardOps SchemaGuard.init
        [GuardOp.call, GuardOp.call, GuardOp.call, GuardOp.settle true,
          GuardOp.call]).2, p = 0 :=
  claim_C8_single_pass_guard
    [GuardOp.call, GuardOp.call, GuardOp.call, GuardOp.settle true, GuardOp.call]
    (by decide)

/-- Counterexample to C9 as stated: a non-numeric `page` parameter makes
`parseInt` return `NaN`, and `Math.max(NaN, 1)` is `NaN`, so the effective
page of that request is not a number at least 1, and the handler has no
valid offset to serve a page from. -/
theorem claim_C9_counterexample :
    effectivePage (some "abc") = none ∧
      (∀ p : Int, ¬ (effectivePage (some "abc") = some p ∧ 1 ≤ p)) ∧
      listTransactions (some "abc") none ([5] : List Nat) = none := by
  refine ⟨rfl, ?_, rfl⟩
  intro p hp
  have h1 : (none : Option Int) = some p := hp.1
  exact absurd h1 (by simp)


/-- C9 (amended): whenever the `page` and `pageSize` parameters parse to
numbers (in particular whenever they are absent, with defaults 1 and 20),
the effective page is at least 1, the effective page size is clamped to
`[1, 100]`, the handler serves the rows starting at offset
`(page - 1) * pageSize` limited to `pageSize`, and the pagination object
reports these clamped values with `totalPages = ceil(total / pageSize)`
(characterized by the two ceiling inequalities). -/
theorem claim_C9_pagination_clamped {α : Type} (pageQuery pageSizeQuery : Option String)
    (rows : List α) (page pageSize : Int)
    (hp : effectivePage pageQuery = some page)
    (hps : effectivePageSize pageSizeQuery = some pageSize) :
    1 ≤ page ∧ 1 ≤ pageSize ∧ pageSize ≤ 100 ∧
      (pageQuery = none → page = 1) ∧ (pageSizeQuery = none → pageSize = 20) ∧
      listTransactions pageQuery pageSizeQuery rows =
        some ((rows.drop ((page - 1) * pageSize).toNat).take pageSize.toNat,
          { page := page, pageSize := pageSize, total := rows.length,
            totalPages := (rows.length + pageSize.toNat - 1) / pageSize.toNat }) ∧
      rows.length ≤ pageSize.toNat * ((rows.length + pageSize.toNat - 1) / pageSize.toNat) ∧
      (0 < rows.length →
        pageSize.toNat * ((rows.length + pageSize.toNat - 1) / pageSize.toNat)
          - pageSize.toNat < rows.length) := by
  obtain ⟨n, hn1, hn2⟩ : ∃ n, parseIntBase10 (pageQuery.getD "1") = some n ∧ page = max n 1 := by
    unfold effectivePage jsMax at hp
    rcases hx : parseIntBase10 (pageQuery.getD "1") with _ | n
    · rw [hx] at hp
      simp at hp
    · rw [hx] at hp
      have hpe : max n 1 = page := by simpa using hp
      exact ⟨n, rfl, hpe.symm⟩
  obtain ⟨m, hm1, hm2⟩ : ∃ m, parseIntBase10 (pageSizeQuery.getD "20") = some m ∧
      pageSize = min (max m 1) 100 := by
    unfold effectivePageSize jsMax jsMin at hps
    rcases hx : parseIntBase10 (pageSizeQuery.getD "20") with _ | m
    · rw [hx] at hps
      simp at hps
    · rw [hx] at hps
      have hpse : min (max m 1) 100 = pageSize := by simpa using hps
      exact ⟨m, rfl, hpse.symm⟩
  have c1 : 1 ≤ page := hn2 ▸ le_max_right n 1
  have c2 : 1 ≤ pageSize := hm2 ▸ le_min (le_max_right m 1) (by norm_num)
  have c3 : pageSize ≤ 100 := hm2 ▸ min_le_right (max m 1) 100
  refine ⟨c1, c2, c3, ?_, ?_, ?_, ?_, ?_⟩
  · intro hq
    subst hq
    simp only [Option.getD_none] at hn1
    rw [show parseIntBase10 "1" = some 1 from rfl] at hn1
    have : n = (1 : Int) := by simpa using hn1.symm
    rw [hn2, this]
    rfl
  · intro hq
    subst hq
    simp only [Option.getD_none] at hm1
    rw [show parseIntBase10 "20" = some 20 from rfl] at hm1
    have : m = (20 : Int) := by simpa using hm1.symm
    rw [hm2, this]
    rfl
  · unfold listTransactions
    rw [hp, hps]
  · have hs : 1 ≤ pageSize.toNat := by omega
    have e := Nat.div_add_mod (rows.length + pageSize.toNat - 1) pageSize.toNat
    have hmod : (rows.length + pageSize.toNat - 1) % pageSize.toNat < pageSize.toNat :=
      Nat.mod_lt _ (by omega)
    omega
  · intro ht
    have hs : 1 ≤ pageSize.toNat := by omega
    have e := Nat.div_add_mod (rows.length + pageSize.toNat - 1) pageSize.toNat
    have hmod : (rows.length + pageSize.toNat - 1) % pageSize.toNat < pageSize.toNat :=
      Nat.mod_lt _ (by omega)
    omega

/-- Witness for C9 (amended): `page=2`, `pageSize=3` over seven rows. -/
theorem claim_C9_pagination_clamped_witness :
    1 ≤ (2 : Int) ∧ 1 ≤ (3 : Int) ∧ (3 : Int) ≤ 100 ∧
      (some "2" = (none : Option String) → (2 : Int) = 1) ∧
      (some "3" = (none : Option String) → (3 : Int) = 20) ∧
      listTransactions (some "2") (some "3") ([10, 11, 12, 13, 14, 15, 16] : List Nat) =
        some ((([10, 11, 12, 13, 14, 15, 16] : List Nat).drop
            (((2 : Int) - 1) * 3).toNat).take (3 : Int).toNat,
          { page := 2, pageSize := 3,
            total := ([10, 11, 12, 13, 14, 15, 16] : List Nat).length,
            totalPages := (([10, 11, 12, 13, 14, 15, 16] : List Nat).length
              + (3 : Int).toNat - 1) / (3 : Int).toNat }) ∧
      ([10, 11, 12, 13, 14, 15, 16] : List Nat).length ≤
        (3 : Int).toNat * ((([10, 11, 12, 13, 14, 15, 16] : List Nat).length
          + (3 : Int).toNat - 1) / (3 : Int).toNat) ∧
      (0 < ([10, 11, 12, 13, 14, 15, 16] : List Nat).length →
        (3 : Int).toNat * ((([10, 11, 12, 13, 14, 15, 16] : List Nat).length
          + (3 : Int).toNat - 1) / (3 : Int).toNat) - (3 : Int).toNat
          < ([10, 11, 12, 13, 14, 15, 16] : List Nat).length) :=
  claim_C9_pagination_clamped (some "2") (some "3") [10, 11, 12, 13, 14, 15, 16] 2 3
    (by rfl) (by rfl)

end FinContas
